import Mathlib

/-!
Verification of the configuration-check DSL and typed validation engine of
the holland backup framework (`holland.core.config.checks` and
`holland.core.config.validation`).

The Python source is shallowly embedded: Python values appearing in parsed
check expressions become the inductive type `PyVal`, Python dicts become
association lists with overwrite-on-insert semantics, exceptions become
`Except` with an error type distinguishing the structured `ValidationError`
and `CheckParseError`/`CheckError` classes from unstructured Python
exceptions (`KeyError`, `TypeError`, ...), and the `re.Scanner`-based
tokenizer is embedded as a priority-ordered list of matcher functions with
the exact greedy/backtracking behaviour of the source's regular expressions.
-/

set_option maxRecDepth 4096

/-- A Python value as it can appear in a parsed check expression or as a
validator input/output: `None`, a bool, an int, a string, a float literal
(kept as its integer part and fractional-digit text, since the claims never
exercise IEEE arithmetic on it), or a list of values. -/
inductive PyVal where
  | none : PyVal
  | bool (b : Bool) : PyVal
  | int (i : Int) : PyVal
  | str (s : String) : PyVal
  | float (ip : Nat) (frac : String) : PyVal
  | list (l : List PyVal) : PyVal

mutual
/-- Structural equality on `PyVal`, playing the role of Python `==` for the
key types that actually occur as dict keys in this code (strings, numbers). -/
def pyEq : PyVal → PyVal → Bool
  | PyVal.none, PyVal.none => true
  | PyVal.bool a, PyVal.bool b => a == b
  | PyVal.int a, PyVal.int b => a == b
  | PyVal.str a, PyVal.str b => a == b
  | PyVal.float a fa, PyVal.float b fb => a == b && fa == fb
  | PyVal.list a, PyVal.list b => pyEqList a b
  | _, _ => false

def pyEqList : List PyVal → List PyVal → Bool
  | [], [] => true
  | x :: xs, y :: ys => pyEq x y && pyEqList xs ys
  | _, _ => false
end

/-- A Python dict, modelled as an association list with unique keys. -/
abbrev PyDict := List (PyVal × PyVal)

/-- Python `d[k]` lookup, as an `Option` (first matching key). -/
def dictLookup : PyDict → PyVal → Option PyVal
  | [], _ => Option.none
  | e :: rest, k => if pyEq e.1 k then some e.2 else dictLookup rest k

/-- Python `d[k] = v`: overwrite in place when the key is present (keeping
the original key object and position, as CPython does), append otherwise. -/
def dictSet (d : PyDict) (k v : PyVal) : PyDict :=
  if d.any (fun e => pyEq e.1 k) then
    d.map (fun e => if pyEq e.1 k then (e.1, v) else e)
  else d ++ [(k, v)]

/-- Removal of a key, as done by `dict.pop`.  Since `dictSet` keeps keys
unique, removing every entry whose key compares equal is the same as
removing the single entry holding the key. -/
def dictErase : PyDict → PyVal → PyDict
  | [], _ => []
  | e :: rest, k => if pyEq e.1 k then dictErase rest k else e :: dictErase rest k

def squote : Char := Char.ofNat 39

def dquote : Char := Char.ofNat 34

def backslash : Char := Char.ofNat 92

/-- Remove one level of backslash escaping: each backslash-plus-character
pair becomes the bare character. -/
def unescape : List Char → List Char
  | [] => []
  | c :: rest =>
    if c == backslash then
      match rest with
      | [] => [c]
      | e :: rest₂ => e :: unescape rest₂
    else c :: unescape rest

/-- Modelled from the spec: `holland.core.config.util.unquote` is imported by
both `checks.py` and `validation.py` but `util.py` is not in the source tree.
Per the spec, a string literal's "value is the unescaped/unquoted content"
with "backslash-escaped embedded quotes and backslash sequences", and
`normalize` "unquotes/unescapes a string-typed raw input" while leaving
already-unquoted text unchanged.  So: when the string is wrapped in a
matching pair of single or double quotes, strip them and unescape the
backslash sequences of the content; otherwise return the string unchanged. -/
def unquote (s : String) : String :=
  match s.data with
  | [] => s
  | [_] => s
  | c₀ :: rest =>
    if (c₀ == squote || c₀ == dquote) && (rest.getLast? == some c₀) then
      String.mk (unescape rest.dropLast)
    else s

/-- Modelled from the spec: `holland.core.config.util.missing` (not in the
source tree) is "an explicit absent sentinel distinct from the null value".
We represent a possibly-missing value as `Option PyVal`, with `Option.none`
as the sentinel; it is distinct from `PyVal.none` (Python `None`) by type. -/
abbrev missing : Option PyVal := Option.none

/-- A lexer token (`checks.Token`): raw text, numeric token id, converted
value and the span of the match in the source string. -/
structure Token where
  text : String
  token_id : Nat
  value : PyVal
  position : Nat × Nat

/-- The check-level exception classes: `CheckParseError` (tokenize/parse
failures) and plain `CheckError` (raised for keyword arguments inside a
list expression). -/
inductive CheckErr where
  | parseError (msg : String) : CheckErr
  | checkError (msg : String) : CheckErr

def CheckParser.T_ID : Nat := 1
def CheckParser.T_STR : Nat := 2
def CheckParser.T_NUM : Nat := 4
def CheckParser.T_SYM : Nat := 16

/-- The character class `[0-9a-zA-Z_-]` of `CheckParser.name_re` (its first
and middle positions use the same set). -/
def isNameChar (c : Char) : Bool := c.isAlphanum || c == '_' || c == '-'

/-- Python `\s` on byte strings: space, tab, newline, carriage return,
vertical tab, form feed. -/
def isPySpace (c : Char) : Bool :=
  c == ' ' || c == '\t' || c == '\n' || c == '\r' ||
    c == Char.ofNat 11 || c == Char.ofNat 12

def dropTrailingDigits (cs : List Char) : List Char :=
  (cs.reverse.dropWhile Char.isDigit).reverse

/-- Match of `name_re = [0-9a-zA-Z_-][a-zA-Z0-9_-]*[a-zA-Z_-]` at the head:
with greedy matching and backtracking this is the longest prefix of the
run of name characters that ends in a non-digit, provided it has at least
two characters. -/
def matchName (cs : List Char) : Option (List Char × List Char) :=
  let run := cs.takeWhile isNameChar
  let core := dropTrailingDigits run
  if 2 ≤ core.length then some (core, cs.drop core.length) else Option.none

/-- Scan the body of a quoted string (`str_re`): plain characters other than
the quote and backslash, and backslash escapes of any character except a
newline.  Returns the number of characters consumed including the closing
quote. -/
def matchStrAux (q : Char) : List Char → Option Nat
  | [] => Option.none
  | c :: rest =>
    if c == q then some 1
    else if c == backslash then
      match rest with
      | [] => Option.none
      | e :: rest₂ =>
        if e == '\n' then Option.none
        else (matchStrAux q rest₂).map (· + 2)
    else (matchStrAux q rest).map (· + 1)

/-- Match of `str_re` at the head: a single- or double-quoted string with
backslash escapes. -/
def matchStr (cs : List Char) : Option (List Char × List Char) :=
  match cs with
  | [] => Option.none
  | c :: rest =>
    if c == squote || c == dquote then
      match matchStrAux c rest with
      | some n => some (cs.take (n + 1), cs.drop (n + 1))
      | Option.none => Option.none
    else Option.none

/-- Match of `float_re = (?<!\.)\d+\.\d+` at the head; `prev` is the
character immediately before the current position, for the lookbehind. -/
def matchFloat (prev : Option Char) (cs : List Char) : Option (List Char × List Char) :=
  if prev == some '.' then Option.none
  else
    let d₁ := cs.takeWhile Char.isDigit
    if d₁.isEmpty then Option.none
    else
      match cs.drop d₁.length with
      | [] => Option.none
      | c :: rest =>
        if c == '.' then
          let d₂ := rest.takeWhile Char.isDigit
          if d₂.isEmpty then Option.none
          else some (d₁ ++ c :: d₂, rest.drop d₂.length)
        else Option.none

/-- Match of `int_re = \d+` at the head. -/
def matchInt (cs : List Char) : Option (List Char × List Char) :=
  let d := cs.takeWhile Char.isDigit
  if d.isEmpty then Option.none else some (d, cs.drop d.length)

/-- Match of `sym_re = [()=,]` at the head. -/
def matchSym (cs : List Char) : Option (List Char × List Char) :=
  match cs with
  | [] => Option.none
  | c :: rest =>
    if c == '(' || c == ')' || c == '=' || c == ',' then some ([c], rest)
    else Option.none

/-- Match of `space_re = \s+` at the head. -/
def matchSpace (cs : List Char) : Option (List Char × List Char) :=
  let d := cs.takeWhile isPySpace
  if d.isEmpty then Option.none else some (d, cs.drop d.length)

/-- Value of a list of decimal digit characters (the `int` conversion
applied to `int_re` matches, and the integer part of `float_re` matches). -/
def digitsToNatRaw (cs : List Char) : Nat :=
  cs.foldl (fun a c => a * 10 + (c.toNat - 48)) 0

/-- One step of `re.Scanner.scan`: try the six rules in the priority order
of `CheckParser.scanner` and build the token with `create_token`'s
conversion.  Returns the produced token (none for whitespace), the number
of characters consumed, and the rest of the input. -/
def scanOne (prev : Option Char) (pos : Nat) (cs : List Char) :
    Option (Option Token × Nat × List Char) :=
  match matchName cs with
  | some (m, rest) =>
    some (some ⟨String.mk m, CheckParser.T_ID, PyVal.str (String.mk m),
      (pos, pos + m.length)⟩, m.length, rest)
  | Option.none =>
  match matchStr cs with
  | some (m, rest) =>
    some (some ⟨String.mk m, CheckParser.T_STR, PyVal.str (unquote (String.mk m)),
      (pos, pos + m.length)⟩, m.length, rest)
  | Option.none =>
  match matchFloat prev cs with
  | some (m, rest) =>
    let d₁ := m.takeWhile Char.isDigit
    let d₂ := m.drop (d₁.length + 1)
    some (some ⟨String.mk m, CheckParser.T_NUM,
      PyVal.float (digitsToNatRaw d₁) (String.mk d₂),
      (pos, pos + m.length)⟩, m.length, rest)
  | Option.none =>
  match matchInt cs with
  | some (m, rest) =>
    some (some ⟨String.mk m, CheckParser.T_NUM,
      PyVal.int (Int.ofNat (digitsToNatRaw m)), (pos, pos + m.length)⟩, m.length, rest)
  | Option.none =>
  match matchSym cs with
  | some (m, rest) =>
    some (some ⟨String.mk m, CheckParser.T_SYM, PyVal.str (String.mk m),
      (pos, pos + m.length)⟩, m.length, rest)
  | Option.none =>
  match matchSpace cs with
  | some (m, rest) => some (Option.none, m.length, rest)
  | Option.none => Option.none

/-- The loop of `re.Scanner.scan`: repeatedly match at the current position;
stop at end of input (no remainder) or at the first unmatched character
(remainder starting at the returned offset).  The fuel is bounded below by
the input length plus one, and every step consumes at least one character,
so the fuel never runs out on the inputs reached from `tokenize`. -/
def scanAux : Nat → Option Char → Nat → List Char → List Token × Option Nat
  | 0, _, pos, cs => ([], if cs.isEmpty then Option.none else some pos)
  | _ + 1, _, _, [] => ([], Option.none)
  | fuel + 1, prev, pos, c :: cs' =>
    match scanOne prev pos (c :: cs') with
    | Option.none => ([], some pos)
    | some (optTok, len, rest) =>
      let consumed := (c :: cs').take len
      let next := scanAux fuel consumed.getLast? (pos + len) rest
      match optTok with
      | some t => (t :: next.1, next.2)
      | Option.none => next

/-- The message of the `CheckParseError` raised by `CheckParser.tokenize`
for an unmatched character: the offset, the check string, and a
caret-marked excerpt. -/
def tokenizeErrMsg (offset : Nat) (check : String) : String :=
  "Unexpected character at offset " ++ toString offset ++ "\n" ++ check ++
    "\n" ++ String.mk (List.replicate offset ' ') ++ "^"

/-- `CheckParser.tokenize`: scan the check string; if a remainder is left,
raise `CheckParseError` with the offset of the first unmatched character. -/
def CheckParser.tokenize (check : String) : Except CheckErr (List Token) :=
  match scanAux (check.length + 1) Option.none 0 check.data with
  | (tokens, Option.none) => Except.ok tokens
  | (_, some offset) => Except.error (CheckErr.parseError (tokenizeErrMsg offset check))

/-- A `Lexer` over the token list produced by `tokenize` (the class wraps an
iterator; here the remaining tokens). -/
abbrev Lexer := List Token

/-- `Lexer.next`: fetch the next token, raising `CheckParseError` at end of
input. -/
def lexNext : Lexer → Except CheckErr (Token × Lexer)
  | [] => Except.error (CheckErr.parseError "Reached end-of-input when reading token")
  | t :: ts => Except.ok (t, ts)

/-- `Lexer.expect`: fetch the next token and raise `CheckParseError` when its
type is not one of the expected token ids. -/
def lexExpect (l : Lexer) (ids : List Nat) : Except CheckErr (Token × Lexer) :=
  match lexNext l with
  | Except.error e => Except.error e
  | Except.ok (t, l₁) =>
    if ids.contains t.token_id then Except.ok (t, l₁)
    else Except.error (CheckErr.parseError "Expected one of the given token ids")

/-- The tail of `CheckParser._parse_argument_list` after the loop: the last
token read must be the closing parenthesis. -/
def argListFinish (token : Token) (args : List PyVal) (kwargs : PyDict) (l : Lexer) :
    Except CheckErr ((List PyVal × PyDict) × Lexer) :=
  if token.text ≠ ")" then
    Except.error (CheckErr.parseError "Expected check expression to end with a closing parenthesis")
  else Except.ok ((args, kwargs), l)

mutual
/-- The `for token in lexer` loop of `CheckParser._parse_argument_list`;
iterating the lexer raises `CheckParseError` at end of input.  The fuel
only bounds the loop; it is chosen large enough by the callers that it
never runs out before the token list is exhausted. -/
def parseArgLoop (fuel : Nat) (l : Lexer) (args : List PyVal) (kwargs : PyDict) :
    Except CheckErr ((List PyVal × PyDict) × Lexer) :=
  match fuel with
  | 0 => Except.error (CheckErr.parseError "out of fuel")
  | fuel + 1 =>
    match lexNext l with
    | Except.error e => Except.error e
    | Except.ok (token, l₁) =>
      if token.text == ")" then argListFinish token args kwargs l₁
      else if !(token.token_id == CheckParser.T_ID || token.token_id == CheckParser.T_STR
          || token.token_id == CheckParser.T_NUM) then
        Except.error (CheckErr.parseError "Unexpected token")
      else
        match parseExpression fuel l₁ token with
        | Except.error e => Except.error e
        | Except.ok (arg, l₂) =>
          match lexExpect l₂ [CheckParser.T_SYM] with
          | Except.error e => Except.error e
          | Except.ok (tok₂, l₃) =>
            if tok₂.text == "=" then
              match lexNext l₃ with
              | Except.error e => Except.error e
              | Except.ok (tok₃, l₄) =>
                match parseExpression fuel l₄ tok₃ with
                | Except.error e => Except.error e
                | Except.ok (value, l₅) =>
                  match lexNext l₅ with
                  | Except.error e => Except.error e
                  | Except.ok (tok₄, l₆) =>
                    if tok₄.text == "," then
                      parseArgLoop fuel l₆ args (dictSet kwargs arg value)
                    else argListFinish tok₄ args (dictSet kwargs arg value) l₆
            else
              if tok₂.text == "," then parseArgLoop fuel l₃ (args ++ [arg]) kwargs
              else argListFinish tok₂ (args ++ [arg]) kwargs l₃

/-- `CheckParser._parse_expression`: a literal, the identifier `None`, any
identifier other than `list` (acting as an unquoted literal), or a list
expression.  Any other token (e.g. a symbol handed in as a keyword value)
also falls into the list-expression branch, exactly as in the source. -/
def parseExpression (fuel : Nat) (l : Lexer) (token : Token) :
    Except CheckErr (PyVal × Lexer) :=
  match fuel with
  | 0 => Except.error (CheckErr.parseError "out of fuel")
  | fuel + 1 =>
    if token.token_id == CheckParser.T_STR || token.token_id == CheckParser.T_NUM then
      Except.ok (token.value, l)
    else if token.token_id == CheckParser.T_ID && token.text ≠ "list" then
      if token.text == "None" then Except.ok (PyVal.none, l)
      else Except.ok (token.value, l)
    else parseListExpr fuel l

/-- `CheckParser._parse_list_expr`: starting immediately after the `list`
token, expect `(`, parse an argument list, and raise `CheckError` when it
contains keyword arguments. -/
def parseListExpr (fuel : Nat) (l : Lexer) : Except CheckErr (PyVal × Lexer) :=
  match fuel with
  | 0 => Except.error (CheckErr.parseError "out of fuel")
  | fuel + 1 =>
    match lexNext l with
    | Except.error e => Except.error e
    | Except.ok (token, l₁) =>
      if token.text ≠ "(" then
        Except.error (CheckErr.parseError "Expected an opening parenthesis")
      else
        match parseArgLoop fuel l₁ [] [] with
        | Except.error e => Except.error e
        | Except.ok ((args, kwargs), l₂) =>
          if kwargs.isEmpty then Except.ok (PyVal.list args, l₂)
          else Except.error (CheckErr.checkError "list expressions may not contain keyword arguments")
end

/-- `CheckParser._parse_argument_list`: parse a list of arguments starting
immediately after the open parenthesis. -/
def parseArgumentList (fuel : Nat) (l : Lexer) :
    Except CheckErr ((List PyVal × PyDict) × Lexer) :=
  parseArgLoop fuel l [] []

/-- `CheckParser.parse`: tokenize, require an identifier as check name,
return the bare name on end of input, otherwise require `(` and parse the
argument list. -/
def CheckParser.parse (check : String) :
    Except CheckErr (PyVal × List PyVal × PyDict) :=
  match CheckParser.tokenize check with
  | Except.error e => Except.error e
  | Except.ok tokens =>
    match lexNext tokens with
    | Except.error e => Except.error e
    | Except.ok (method, rest) =>
      if method.token_id ≠ CheckParser.T_ID then
        Except.error (CheckErr.parseError "Expected identifier as first token in check string")
      else
        match lexNext rest with
        | Except.error _ => Except.ok (method.value, [], [])
        | Except.ok (token, rest₂) =>
          if token.text ≠ "(" then
            Except.error (CheckErr.parseError "Expected an opening parenthesis as token following method name")
          else
            match parseArgumentList (tokens.length + 1) rest₂ with
            | Except.error e => Except.error e
            | Except.ok ((args, kwargs), _) => Except.ok (method.value, args, kwargs)

/-- `checks.Check`: the parsed declaration.  The source represents it as a
tuple with item accessors `name`, `args`, `kwargs`, `default`, `aliasof`;
the two last fields hold the `missing` sentinel as `Option.none`. -/
structure Check where
  name : PyVal
  args : List PyVal
  kwargs : PyDict
  default : Option PyVal
  aliasof : Option PyVal

/-- `Check.is_alias`: whether the declaration is an alias, i.e. `aliasof`
is not the `missing` sentinel. -/
def Check.is_alias (c : Check) : Bool := c.aliasof.isSome

/-- `Check.parse`: parse the check string and pop the reserved keywords
`default` and `aliasof` (in this order, as in the source) out of the
keyword mapping, defaulting to the `missing` sentinel. -/
def Check.parse (check : String) : Except CheckErr Check :=
  match CheckParser.parse check with
  | Except.error e => Except.error e
  | Except.ok (name, args, kwargs) =>
    let default := dictLookup kwargs (PyVal.str "default")
    let kwargs₁ := dictErase kwargs (PyVal.str "default")
    let aliasof := dictLookup kwargs₁ (PyVal.str "aliasof")
    let kwargs₂ := dictErase kwargs₁ (PyVal.str "aliasof")
    Except.ok ⟨name, args, kwargs₂, default, aliasof⟩

/-- Python exceptions raised by the validators: the module's structured
`ValidationError` (carrying a message and the offending value), and the
unstructured built-in exceptions that can escape (`KeyError` from a dict
lookup, `TypeError`, `AttributeError`). -/
inductive PyErr where
  | validationError (message : String) (value : PyVal) : PyErr
  | keyError (key : PyVal) : PyErr
  | typeError (msg : String) : PyErr
  | attributeError (msg : String) : PyErr
  | valueError (msg : String) : PyErr

/-- Python truthiness of a value. -/
def pyTruthy : PyVal → Bool
  | PyVal.none => false
  | PyVal.bool b => b
  | PyVal.int i => i != 0
  | PyVal.str s => !s.isEmpty
  | PyVal.float ip frac => !(ip == 0 && frac.data.all (· == '0'))
  | PyVal.list l => !l.isEmpty

def pyIsNone : PyVal → Bool
  | PyVal.none => true
  | _ => false

/-- Python 2 `int_value < v` for the bound values that can appear in a
check's kwargs.  Numbers compare numerically (a float literal `ip.frac`
with `0 ≤ frac < 1` exceeds an integer `i` iff `i < ip`, or `i = ip` with a
nonzero fractional part); `None` is smaller than every number; numbers are
smaller than every other type under Python 2's cross-type ordering. -/
def pyLtV (i : Int) : PyVal → Bool
  | PyVal.int m => i < m
  | PyVal.bool b => i < (if b then 1 else 0)
  | PyVal.float ip frac => i < Int.ofNat ip || (i == Int.ofNat ip && frac.data.any (· != '0'))
  | PyVal.none => false
  | _ => true

/-- Python 2 `int_value > v`; see `pyLtV` for the ordering conventions. -/
def pyGtV (i : Int) : PyVal → Bool
  | PyVal.int m => m < i
  | PyVal.bool b => (if b then 1 else 0 : Int) < i
  | PyVal.float ip _ => Int.ofNat ip < i
  | PyVal.none => true
  | _ => false

/-- Decimal digits, most significant first, with explicit fuel so that the
definition reduces inside the kernel; the fuel is always sufficient at the
value passed by `natToDigits`. -/
def natToDigitsAux : Nat → Nat → List Char
  | 0, _ => []
  | fuel + 1, n =>
    if n < 10 then [Nat.digitChar n]
    else natToDigitsAux fuel (n / 10) ++ [Nat.digitChar (n % 10)]

/-- Decimal digits of `n`, most significant first (the characters of
Python's `str` of a nonnegative integer). -/
def natToDigits (n : Nat) : List Char := natToDigitsAux (n + 1) n

/-- Python `str` of an int. -/
def intToStr : Int → String
  | Int.ofNat n => String.mk (natToDigits n)
  | Int.negSucc m => String.mk ('-' :: natToDigits (m + 1))

/-- Python `str` of a float literal (only reached through `format` on float
values, which no claim exercises). -/
def floatToStr (ip : Nat) (frac : String) : String :=
  String.mk (natToDigits ip) ++ "." ++ frac

mutual
/-- Python `repr` of a value, for list elements inside `str` of a list.
The quote-escaping subtleties of `repr` on strings containing quotes are
elided; no claim reaches them. -/
def pyRepr : PyVal → String
  | PyVal.none => "None"
  | PyVal.bool b => if b then "True" else "False"
  | PyVal.int i => intToStr i
  | PyVal.str s => String.singleton squote ++ s ++ String.singleton squote
  | PyVal.float ip frac => floatToStr ip frac
  | PyVal.list l => "[" ++ pyReprInner l ++ "]"

/-- Comma-separated `repr`s of the elements of a list. -/
def pyReprInner : List PyVal → String
  | [] => ""
  | [x] => pyRepr x
  | x :: xs => pyRepr x ++ ", " ++ pyReprInner xs
end

/-- Python `str` of a value. -/
def pyStr : PyVal → String
  | PyVal.str s => s
  | v => pyRepr v

/-- `BaseValidator.normalize`: unquote string input, pass everything else
through unchanged. -/
def BaseValidator.normalize (value : PyVal) : PyVal :=
  match value with
  | PyVal.str s => PyVal.str (unquote s)
  | v => v

/-- `BaseValidator.format`: `None` passes through, everything else is
stringified. -/
def BaseValidator.format (value : PyVal) : PyVal :=
  match value with
  | PyVal.none => PyVal.none
  | v => PyVal.str (pyStr v)

/-- The `valid_bools` mapping of `BoolValidator.convert`. -/
def valid_bools : List (String × Bool) :=
  [("yes", true), ("on", true), ("true", true), ("1", true),
   ("no", false), ("off", false), ("false", false), ("0", false)]

/-- Python 2 `str.lower`: lowercase the ASCII letters. -/
def pyLower (s : String) : String := String.mk (s.data.map Char.toLower)

/-- `BoolValidator.convert`: pass booleans through; otherwise look the
lowercased value up in `valid_bools` — a plain dict subscript, so an
unrecognized token raises `KeyError`, not `ValidationError`.  Input that is
not a string (and not a bool) fails the `.lower()` attribute access. -/
def BoolValidator.convert (value : PyVal) : Except PyErr PyVal :=
  match value with
  | PyVal.bool b => Except.ok (PyVal.bool b)
  | PyVal.str s =>
    match valid_bools.find? (fun e => e.1 == pyLower s) with
    | some e => Except.ok (PyVal.bool e.2)
    | Option.none => Except.error (PyErr.keyError (PyVal.str (pyLower s)))
  | _ => Except.error (PyErr.attributeError "lower")

/-- `BoolValidator.format`: `value and 'yes' or 'no'`. -/
def BoolValidator.format (value : PyVal) : PyVal :=
  PyVal.str (if pyTruthy value then "yes" else "no")

/-- `self.kwargs.get(k)`: `None` when the key is absent. -/
def kwGet (kwargs : PyDict) (k : String) : PyVal :=
  (dictLookup kwargs (PyVal.str k)).getD PyVal.none

/-- `self.kwargs.get('base', 10)`. -/
def kwGetBase (kwargs : PyDict) : PyVal :=
  (dictLookup kwargs (PyVal.str "base")).getD (PyVal.int 10)

/-- Value of one digit character in up to base 36 (`0-9a-zA-Z`). -/
def digitVal (c : Char) : Option Nat :=
  if c.isDigit then some (c.toNat - 48)
  else if 97 ≤ c.toNat && c.toNat ≤ 122 then some (c.toNat - 87)
  else if 65 ≤ c.toNat && c.toNat ≤ 90 then some (c.toNat - 55)
  else Option.none

/-- Accumulate digits in the given base, failing on a character that is not
a digit of the base. -/
def foldDigits (b : Nat) (cs : List Char) : Option Nat :=
  cs.foldl
    (fun acc c =>
      match acc, digitVal c with
      | some a, some d => if d < b then some (a * b + d) else Option.none
      | _, _ => Option.none)
    (some 0)

/-- Strip leading and trailing Python whitespace. -/
def stripChars (cs : List Char) : List Char :=
  ((cs.dropWhile isPySpace).reverse.dropWhile isPySpace).reverse

/-- Radix prefix handling of Python `int(s, base)`: `0x`/`0X` for base 16,
`0o`/`0O` for base 8, `0b`/`0B` for base 2; base 0 detects the base from
the prefix (a bare leading zero meaning octal in Python 2, plain digits
meaning decimal). -/
def applyPrefix (b : Nat) (cs : List Char) : Nat × List Char :=
  match b, cs with
  | 16, '0' :: x :: rest => if x == 'x' || x == 'X' then (16, rest) else (16, cs)
  | 8, '0' :: x :: rest => if x == 'o' || x == 'O' then (8, rest) else (8, cs)
  | 2, '0' :: x :: rest => if x == 'b' || x == 'B' then (2, rest) else (2, cs)
  | 0, '0' :: x :: rest =>
    if x == 'x' || x == 'X' then (16, rest)
    else if x == 'o' || x == 'O' then (8, rest)
    else if x == 'b' || x == 'B' then (2, rest)
    else (8, cs)
  | 0, _ => (10, cs)
  | _, _ => (b, cs)

/-- Python `int(s, base)` on a string: strip whitespace, read an optional
sign, handle the radix prefix, and require at least one digit of the
(effective) base.  `Option.none` stands for `ValueError`. -/
def pyIntOfString (s : String) (base : Int) : Option Int :=
  if base ≠ 0 ∧ (base < 2 ∨ 36 < base) then Option.none
  else
    let cs := stripChars s.data
    let signed : Bool × List Char :=
      match cs with
      | c :: rest =>
        if c == '-' then (true, rest)
        else if c == '+' then (false, rest) else (false, cs)
      | [] => (false, cs)
    let pref := applyPrefix base.toNat signed.2
    if pref.2.isEmpty then Option.none
    else
      match foldDigits pref.1 pref.2 with
      | some n => some (if signed.1 then -(Int.ofNat n) else Int.ofNat n)
      | Option.none => Option.none

/-- The bounds checks at the end of `IntValidator.convert`: the `min` bound
is applied when `kwargs.get('min') is not None`, the `max` bound only when
`kwargs.get('max')` is truthy; the returned value is the converted input
unchanged.  The messages format the bound with `%d`, which itself raises
`TypeError` on a non-numeric bound. -/
def intCheckBounds (kwargs : PyDict) (num : Int) (ret : PyVal) : Except PyErr PyVal :=
  if !pyIsNone (kwGet kwargs "min") && pyLtV num (kwGet kwargs "min") then
    match kwGet kwargs "min" with
    | PyVal.int m => Except.error (PyErr.validationError ("Integer value must be > " ++ intToStr m) ret)
    | PyVal.bool b => Except.error (PyErr.validationError ("Integer value must be > " ++ intToStr (if b then 1 else 0)) ret)
    | PyVal.float ip _ => Except.error (PyErr.validationError ("Integer value must be > " ++ intToStr (Int.ofNat ip)) ret)
    | _ => Except.error (PyErr.typeError "int argument required")
  else if pyTruthy (kwGet kwargs "max") && pyGtV num (kwGet kwargs "max") then
    match kwGet kwargs "max" with
    | PyVal.int m => Except.error (PyErr.validationError ("Integer value exceeds maximum " ++ intToStr m) ret)
    | PyVal.bool b => Except.error (PyErr.validationError ("Integer value exceeds maximum " ++ intToStr (if b then 1 else 0)) ret)
    | PyVal.float ip _ => Except.error (PyErr.validationError ("Integer value exceeds maximum " ++ intToStr (Int.ofNat ip)) ret)
    | _ => Except.error (PyErr.typeError "int argument required")
  else Except.ok ret

/-- `IntValidator.convert`: `None` passes through; ints (including bools,
which are ints in Python) skip conversion; strings are parsed with
`int(value, kwargs.get('base', 10))`, a `ValueError` becoming a
`ValidationError`; anything else raises `TypeError` inside `int()`.  The
bounds checks then run on the numeric value. -/
def IntValidator.convert (kwargs : PyDict) (value : PyVal) : Except PyErr PyVal :=
  match value with
  | PyVal.none => Except.ok PyVal.none
  | PyVal.bool b => intCheckBounds kwargs (if b then 1 else 0) (PyVal.bool b)
  | PyVal.int i => intCheckBounds kwargs i (PyVal.int i)
  | PyVal.str s =>
    match kwGetBase kwargs with
    | PyVal.int base =>
      match pyIntOfString s base with
      | some i => intCheckBounds kwargs i (PyVal.int i)
      | Option.none =>
        Except.error (PyErr.validationError ("Invalid format for integer " ++ s) (PyVal.str s))
    | PyVal.bool b =>
      match pyIntOfString s (if b then 1 else 0) with
      | some i => intCheckBounds kwargs i (PyVal.int i)
      | Option.none =>
        Except.error (PyErr.validationError ("Invalid format for integer " ++ s) (PyVal.str s))
    | _ => Except.error (PyErr.typeError "an integer is required")
  | _ => Except.error (PyErr.typeError "int() argument must be a string or a number")

/-- States of the `csv` module's field parser (excel dialect, delimiter
`,`, quote `"`, doubled quotes, `skipinitialspace=True`, non-strict). -/
inductive CsvState where
  | recStart : CsvState
  | fieldStart : CsvState
  | inField (acc : List Char) : CsvState
  | inQuoted (acc : List Char) : CsvState
  | quoteQ (acc : List Char) : CsvState

/-- The `csv.reader` state machine over the raw characters, producing the
concatenation of all rows' fields (the source flattens the rows with
`for row in reader for cell in row`, so record boundaries need not be
kept). -/
def csvRun : CsvState → List Char → List String
  | CsvState.recStart, [] => []
  | CsvState.fieldStart, [] => [""]
  | CsvState.inField a, [] => [String.mk a]
  | CsvState.inQuoted a, [] => [String.mk a]
  | CsvState.quoteQ a, [] => [String.mk a]
  | CsvState.recStart, c :: cs =>
    if c == '\n' || c == '\r' then csvRun CsvState.recStart cs
    else if c == ' ' then csvRun CsvState.fieldStart cs
    else if c == dquote then csvRun (CsvState.inQuoted []) cs
    else if c == ',' then "" :: csvRun CsvState.fieldStart cs
    else csvRun (CsvState.inField [c]) cs
  | CsvState.fieldStart, c :: cs =>
    if c == '\n' || c == '\r' then "" :: csvRun CsvState.recStart cs
    else if c == ' ' then csvRun CsvState.fieldStart cs
    else if c == dquote then csvRun (CsvState.inQuoted []) cs
    else if c == ',' then "" :: csvRun CsvState.fieldStart cs
    else csvRun (CsvState.inField [c]) cs
  | CsvState.inField a, c :: cs =>
    if c == ',' then String.mk a :: csvRun CsvState.fieldStart cs
    else if c == '\n' || c == '\r' then String.mk a :: csvRun CsvState.recStart cs
    else csvRun (CsvState.inField (a ++ [c])) cs
  | CsvState.inQuoted a, c :: cs =>
    if c == dquote then csvRun (CsvState.quoteQ a) cs
    else csvRun (CsvState.inQuoted (a ++ [c])) cs
  | CsvState.quoteQ a, c :: cs =>
    if c == dquote then csvRun (CsvState.inQuoted (a ++ [c])) cs
    else if c == ',' then String.mk a :: csvRun CsvState.fieldStart cs
    else if c == '\n' || c == '\r' then String.mk a :: csvRun CsvState.recStart cs
    else csvRun (CsvState.inField (a ++ [c])) cs

/-- The fields the `csv.reader` yields for the raw value, rows flattened. -/
def csvCells (s : String) : List String := csvRun CsvState.recStart s.data

/-- The cell pipeline of `ListValidator.convert`:
`[unquote(cell) ... for cell in row if unquote(cell)]` — each cell is
unquoted and cells that are empty after unquoting are dropped. -/
def listConvertCells (s : String) : List String :=
  ((csvCells s).map unquote).filter (fun c => !c.isEmpty)

/-- `ListValidator.normalize` skips `BaseValidator`'s unquoting. -/
def ListValidator.normalize (value : PyVal) : PyVal := value

/-- `ListValidator.convert`: lists pass through; a string is parsed as
comma-separated quote-aware fields which are unquoted, empty fields
dropped.  Non-string input fails inside the line iteration. -/
def ListValidator.convert (value : PyVal) : Except PyErr PyVal :=
  match value with
  | PyVal.list l => Except.ok (PyVal.list l)
  | PyVal.str s => Except.ok (PyVal.list ((listConvertCells s).map PyVal.str))
  | _ => Except.error (PyErr.typeError "expected string or list")

/-- `StringValidator` adds nothing to `BaseValidator`: `convert` is the
inherited identity. -/
def StringValidator.convert (value : PyVal) : Except PyErr PyVal := Except.ok value

/-- The strings of a value list, when every element is a string (the
precondition of `','.join(...)` and of the csv/cmdline serializers, whose
elements are encoded; a non-string element raises). -/
def allStrs : List PyVal → Option (List String)
  | [] => some []
  | PyVal.str s :: rest => (allStrs rest).map (fun r => s :: r)
  | _ => Option.none

/-- `OptionValidator.convert`: membership of the value in the declaration's
positional arguments (Python `in`, comparing each element for equality);
otherwise a `ValidationError` whose message enumerates the allowed set via
`','.join(self.args)` — which itself raises `TypeError` when an argument is
not a string. -/
def OptionValidator.convert (args : List PyVal) (value : PyVal) : Except PyErr PyVal :=
  if args.any (fun a => pyEq a value) then Except.ok value
  else
    match allStrs args with
    | some strs =>
      Except.error (PyErr.validationError
        ("invalid option " ++ String.singleton squote ++ pyStr value ++ String.singleton squote
          ++ " - choose from: " ++ String.intercalate "," strs) value)
    | Option.none => Except.error (PyErr.typeError "sequence item: expected string")

/-- A Python float value.  Python floats are IEEE-754 doubles; the
embedding represents them as exact fractions `num/den`.  This is used only
to settle the round-trip behaviour of `FloatValidator` at concrete decimal
inputs where the modelled results agree with the IEEE ones (the doubles
nearest 0.001 and 0.0 also format to `0.00` and differ from each other). -/
structure PyFloat where
  num : Int
  den : Nat
deriving DecidableEq

/-- Python `==` on float values: numeric equality of the fractions. -/
def pyFloatEq (a b : PyFloat) : Bool := a.num * (b.den : Int) == b.num * (a.den : Int)

/-- The mantissa part of Python `float(s)`: digits, optionally a decimal
point and more digits, at least one digit in total.  Returns the digit
value, the number of fractional digits and the rest of the input. -/
def parseMantissa (cs : List Char) : Option (Nat × Nat × List Char) :=
  let d₁ := cs.takeWhile Char.isDigit
  let cs₂ := cs.drop d₁.length
  match cs₂ with
  | '.' :: rest =>
    let d₂ := rest.takeWhile Char.isDigit
    if d₁.isEmpty && d₂.isEmpty then Option.none
    else some (digitsToNatRaw (d₁ ++ d₂), d₂.length, rest.drop d₂.length)
  | _ => if d₁.isEmpty then Option.none else some (digitsToNatRaw d₁, 0, cs₂)

/-- The optional exponent part of Python `float(s)`. -/
def parseExponent : List Char → Option (Int × List Char)
  | [] => some (0, [])
  | c :: rest =>
    if c == 'e' || c == 'E' then
      match rest with
      | [] => Option.none
      | r₀ :: r₁ =>
        let signed : Bool × List Char :=
          if r₀ == '-' then (true, r₁)
          else if r₀ == '+' then (false, r₁) else (false, r₀ :: r₁)
        let dg := signed.2.takeWhile Char.isDigit
        if dg.isEmpty then Option.none
        else
          some ((if signed.1 then -(Int.ofNat (digitsToNatRaw dg)) else Int.ofNat (digitsToNatRaw dg)),
            signed.2.drop dg.length)
    else some (0, c :: rest)

/-- Python `float(s)` on a string: strip whitespace, optional sign,
mantissa, optional exponent, and nothing else.  `inf`/`nan` spellings are
outside the model; no claim exercises them.  `Option.none` stands for
`ValueError`. -/
def pyFloatOfString (s : String) : Option PyFloat :=
  let cs := stripChars s.data
  let signed : Bool × List Char :=
    match cs with
    | c :: rest =>
      if c == '-' then (true, rest)
      else if c == '+' then (false, rest) else (false, cs)
    | [] => (false, cs)
  match parseMantissa signed.2 with
  | Option.none => Option.none
  | some (mant, fracLen, rest) =>
    match parseExponent rest with
    | Option.none => Option.none
    | some (e, rest₂) =>
      if rest₂.isEmpty then
        let num : Int := if signed.1 then -(Int.ofNat mant) else Int.ofNat mant
        some (if e < 0 then ⟨num, 10 ^ (fracLen + e.natAbs)⟩
          else ⟨num * (Int.ofNat (10 ^ e.natAbs)), 10 ^ fracLen⟩)
      else Option.none

/-- `FloatValidator.convert`: parse a string with `float(value)`, turning
`ValueError` into `ValidationError`; numbers pass through as floats. -/
def FloatValidator.convert (value : PyVal) : Except PyErr PyFloat :=
  match value with
  | PyVal.str s =>
    match pyFloatOfString s with
    | some q => Except.ok q
    | Option.none =>
      Except.error (PyErr.validationError ("Invalid format for float " ++ s) (PyVal.str s))
  | PyVal.int i => Except.ok ⟨i, 1⟩
  | PyVal.bool b => Except.ok ⟨if b then 1 else 0, 1⟩
  | PyVal.float ip fr => Except.ok ⟨Int.ofNat (digitsToNatRaw (natToDigits ip ++ fr.data)), 10 ^ fr.length⟩
  | _ => Except.error (PyErr.typeError "float() argument must be a string or a number")

/-- `"%.2f" % q`: round the value to two decimal places with ties to even
(the C `printf` behaviour on these exact values) and render with a
two-digit fraction. -/
def formatF2 (q : PyFloat) : String :=
  let den : Int := Int.ofNat q.den
  let x : Int := q.num * 100
  let fl : Int := Int.fdiv x den
  let rem : Int := x - fl * den
  let n : Int :=
    if den < 2 * rem then fl + 1
    else if 2 * rem < den then fl
    else if fl % 2 = 0 then fl else fl + 1
  let m := n.natAbs
  (if n < 0 then "-" else "") ++ String.mk (natToDigits (m / 100)) ++ "." ++
    String.mk [Nat.digitChar (m / 10 % 10), Nat.digitChar (m % 10)]

/-- `FloatValidator.format`: the fixed two-decimal-place string. -/
def FloatValidator.format (q : PyFloat) : PyVal := PyVal.str (formatF2 q)

/-- Whether the csv writer (excel dialect, `QUOTE_MINIMAL`) must quote a
cell: it contains the delimiter, the quote character, or a line break. -/
def csvNeedsQuote (s : String) : Bool :=
  s.data.any (fun c => c == ',' || c == dquote || c == '\r' || c == '\n')

/-- Double the quote characters of a quoted cell's content. -/
def csvEscape : List Char → List Char
  | [] => []
  | c :: rest => if c == dquote then dquote :: dquote :: csvEscape rest else c :: csvEscape rest

/-- One cell as the csv writer emits it. -/
def csvQuoteCell (s : String) : List Char :=
  if csvNeedsQuote s then dquote :: (csvEscape s.data ++ [dquote]) else s.data

/-- The cells of one row joined with the delimiter. -/
def csvRow : List String → List Char
  | [] => []
  | [c] => csvQuoteCell c
  | c :: rest => csvQuoteCell c ++ ',' :: csvRow rest

/-- The text `ListValidator.format` produces: the csv row, the writer's
`\r\n` terminator, and the source's final `.strip()`. -/
def csvFormatCells (cells : List String) : String :=
  String.mk (stripChars (csvRow cells ++ ['\r', '\n']))

/-- `ListValidator.format`: serialize a list of strings as one csv row and
strip the result.  A non-string element fails its `encode`; `writerow` of
a non-list is not reached by any claim and is modelled as a `TypeError`. -/
def ListValidator.format (value : PyVal) : Except PyErr PyVal :=
  match value with
  | PyVal.list l =>
    match allStrs l with
    | some cells => Except.ok (PyVal.str (csvFormatCells cells))
    | Option.none => Except.error (PyErr.attributeError "encode")
  | _ => Except.error (PyErr.typeError "expected a list of strings")

/-- `TupleValidator.convert`: the list conversion, frozen with `tuple()`;
tuples are modelled as lists. -/
def TupleValidator.convert (value : PyVal) : Except PyErr PyVal :=
  ListValidator.convert value

/-- States of `shlex` in POSIX mode with `whitespace_split` (the
configuration `shlex.split` uses): between words, in a word (with the
posix `quoted` flag deciding whether an empty token is released), inside
single or double quotes, and after an escape character in word or
double-quote context. -/
inductive ShState where
  | start : ShState
  | word (acc : List Char) (quoted : Bool) : ShState
  | single (acc : List Char) : ShState
  | double (acc : List Char) : ShState
  | escapedW (acc : List Char) (quoted : Bool) : ShState
  | escapedD (acc : List Char) : ShState

/-- The whitespace set of `shlex`. -/
def shlexWs (c : Char) : Bool := c == ' ' || c == '\t' || c == '\r' || c == '\n'

/-- The `shlex` tokenizer: single quotes take everything literally, double
quotes let backslash escape only the backslash and the double quote
(otherwise the backslash stays), backslash outside quotes escapes any
character, and an open quote or trailing escape at end of input raises
`ValueError`. -/
def shlexRun : ShState → List Char → Except String (List String)
  | ShState.start, [] => Except.ok []
  | ShState.word acc q, [] =>
    if acc.isEmpty && !q then Except.ok [] else Except.ok [String.mk acc]
  | ShState.single _, [] => Except.error "No closing quotation"
  | ShState.double _, [] => Except.error "No closing quotation"
  | ShState.escapedW _ _, [] => Except.error "No escape character"
  | ShState.escapedD _, [] => Except.error "No escape character"
  | ShState.start, c :: cs =>
    if shlexWs c then shlexRun ShState.start cs
    else if c == squote then shlexRun (ShState.single []) cs
    else if c == dquote then shlexRun (ShState.double []) cs
    else if c == backslash then shlexRun (ShState.escapedW [] false) cs
    else shlexRun (ShState.word [c] false) cs
  | ShState.word acc q, c :: cs =>
    if shlexWs c then
      if acc.isEmpty && !q then shlexRun ShState.start cs
      else
        match shlexRun ShState.start cs with
        | Except.ok rest => Except.ok (String.mk acc :: rest)
        | Except.error e => Except.error e
    else if c == squote then shlexRun (ShState.single acc) cs
    else if c == dquote then shlexRun (ShState.double acc) cs
    else if c == backslash then shlexRun (ShState.escapedW acc q) cs
    else shlexRun (ShState.word (acc ++ [c]) q) cs
  | ShState.single acc, c :: cs =>
    if c == squote then shlexRun (ShState.word acc true) cs
    else shlexRun (ShState.single (acc ++ [c])) cs
  | ShState.double acc, c :: cs =>
    if c == dquote then shlexRun (ShState.word acc true) cs
    else if c == backslash then shlexRun (ShState.escapedD acc) cs
    else shlexRun (ShState.double (acc ++ [c])) cs
  | ShState.escapedW acc q, c :: cs => shlexRun (ShState.word (acc ++ [c]) q) cs
  | ShState.escapedD acc, c :: cs =>
    if c == backslash || c == dquote then shlexRun (ShState.double (acc ++ [c])) cs
    else shlexRun (ShState.double (acc ++ [backslash, c])) cs

/-- `CmdlineValidator.convert`: `shlex.split` the raw text; its
`ValueError` on malformed quoting propagates unturned. -/
def CmdlineValidator.convert (value : PyVal) : Except PyErr PyVal :=
  match value with
  | PyVal.str s =>
    match shlexRun ShState.start s.data with
    | Except.ok words => Except.ok (PyVal.list (words.map PyVal.str))
    | Except.error msg => Except.error (PyErr.valueError msg)
  | _ => Except.error (PyErr.attributeError "encode")

/-- The character loop of `subprocess.list2cmdline` on one argument, with
the pending backslash count: backslashes before a quote are doubled and
the quote escaped; trailing backslashes are doubled again when the
argument is quoted. -/
def cmdArgBody (needquote : Bool) : List Char → Nat → List Char
  | [], bs =>
    List.replicate bs backslash ++ (if needquote then List.replicate bs backslash else [])
  | c :: rest, bs =>
    if c == backslash then cmdArgBody needquote rest (bs + 1)
    else if c == dquote then
      List.replicate (2 * bs) backslash ++ backslash :: dquote :: cmdArgBody needquote rest 0
    else List.replicate bs backslash ++ c :: cmdArgBody needquote rest 0

/-- One argument as `list2cmdline` renders it: quoted when it contains a
space or tab or is empty. -/
def cmdArgRender (a : String) : List Char :=
  let needquote := a.data.any (fun c => c == ' ' || c == '\t') || a.data.isEmpty
  (if needquote then [dquote] else []) ++ cmdArgBody needquote a.data 0 ++
    (if needquote then [dquote] else [])

/-- The rendered arguments joined with single spaces. -/
def cmdJoin : List String → List Char
  | [] => []
  | [a] => cmdArgRender a
  | a :: rest => cmdArgRender a ++ ' ' :: cmdJoin rest

/-- `CmdlineValidator.format`: `subprocess.list2cmdline` over the argument
vector. -/
def CmdlineValidator.format (value : PyVal) : Except PyErr PyVal :=
  match value with
  | PyVal.list l =>
    match allStrs l with
    | some args => Except.ok (PyVal.str (String.mk (cmdJoin args)))
    | Option.none => Except.error (PyErr.typeError "expected a string argument")
  | _ => Except.error (PyErr.typeError "expected a sequence of strings")

/-- The name-to-severity half of `LogLevelValidator.levels`. -/
def logNameToLevel : List (String × Int) :=
  [("debug", 10), ("info", 20), ("warning", 30), ("error", 40), ("fatal", 50)]

/-- The severity-to-name half of `LogLevelValidator.levels`. -/
def logLevelToName : List (Int × String) :=
  [(10, "debug"), (20, "info"), (30, "warning"), (40, "error"), (50, "fatal")]

/-- `LogLevelValidator.convert`: integers (and bools, which are ints in
Python) pass through; a string is looked up lowercased, `KeyError`
becoming a `ValidationError`; other input fails the `.lower()` access. -/
def LogLevelValidator.convert (value : PyVal) : Except PyErr PyVal :=
  match value with
  | PyVal.int i => Except.ok (PyVal.int i)
  | PyVal.bool b => Except.ok (PyVal.bool b)
  | PyVal.str s =>
    match logNameToLevel.find? (fun e => e.1 == pyLower s) with
    | some e => Except.ok (PyVal.int e.2)
    | Option.none =>
      Except.error (PyErr.validationError
        ("Invalid log level " ++ String.singleton squote ++ s ++ String.singleton squote)
        (PyVal.str s))
  | _ => Except.error (PyErr.attributeError "lower")

/-- `LogLevelValidator.format`: `self.levels[value].lower()` with
`KeyError` turned into a `ValidationError`.  A severity outside the named
set is rejected; a name handed in finds the integer level, whose `.lower()`
then fails. -/
def LogLevelValidator.format (value : PyVal) : Except PyErr PyVal :=
  match value with
  | PyVal.int i =>
    match logLevelToName.find? (fun e => e.1 == i) with
    | some e => Except.ok (PyVal.str (pyLower e.2))
    | Option.none =>
      Except.error (PyErr.validationError
        ("Unknown logging level " ++ String.singleton squote ++ intToStr i ++ String.singleton squote)
        (PyVal.int i))
  | PyVal.str s =>
    match logNameToLevel.find? (fun e => e.1 == s) with
    | some _ => Except.error (PyErr.attributeError "lower")
    | Option.none =>
      Except.error (PyErr.validationError
        ("Unknown logging level " ++ String.singleton squote ++ s ++ String.singleton squote)
        (PyVal.str s))
  | PyVal.bool b =>
    Except.error (PyErr.validationError
      ("Unknown logging level " ++ String.singleton squote ++ (if b then "True" else "False")
        ++ String.singleton squote) (PyVal.bool b))
  | PyVal.float ip fr =>
    Except.error (PyErr.validationError
      ("Unknown logging level " ++ String.singleton squote ++ floatToStr ip fr
        ++ String.singleton squote) (PyVal.float ip fr))
  | PyVal.none =>
    Except.error (PyErr.validationError
      ("Unknown logging level " ++ String.singleton squote ++ "None" ++ String.singleton squote)
      PyVal.none)
  | PyVal.list _ => Except.error (PyErr.typeError "unhashable type")

/-- The cells for which the csv write/read round trip is proved: nonempty,
unchanged by `unquote`, and either needing csv quoting (the quotes protect
every character) or free of edge whitespace (which `skipinitialspace` or
the final `.strip()` would eat). -/
def cellOk (c : String) : Bool :=
  !c.data.isEmpty && (unquote c == c) &&
    (csvNeedsQuote c ||
      ((match c.data.head? with
        | some h => !isPySpace h
        | Option.none => true) &&
       (match c.data.getLast? with
        | some h => !isPySpace h
        | Option.none => true)))

/-- A character that `shlex` takes literally and `list2cmdline` never
quotes or escapes. -/
def shlexSafeChar (c : Char) : Bool :=
  !(c == ' ' || c == '\t' || c == '\r' || c == '\n' ||
    c == squote || c == dquote || c == backslash)

/-- The command-line arguments for which the round trip is proved:
nonempty words of safe characters. -/
def cmdArgOk (a : String) : Bool := !a.data.isEmpty && a.data.all shlexSafeChar

/-- The classes registered in `default_validators`. -/
inductive ValidatorClass where
  | boolV | intV | floatV | stringV | optionV | listV | tupleV | cmdlineV | logLevelV
deriving DecidableEq

/-- The `default_validators` registry: name/validator-class pairs. -/
def default_validators : List (String × ValidatorClass) :=
  [("boolean", ValidatorClass.boolV), ("integer", ValidatorClass.intV),
   ("float", ValidatorClass.floatV), ("string", ValidatorClass.stringV),
   ("option", ValidatorClass.optionV), ("list", ValidatorClass.listV),
   ("force_list", ValidatorClass.listV), ("tuple", ValidatorClass.tupleV),
   ("cmdline", ValidatorClass.cmdlineV), ("log_level", ValidatorClass.logLevelV)]

/-! ### Helper lemmas -/

lemma pyEq_str_right {v : PyVal} {t : String} (h : pyEq v (PyVal.str t) = true) :
    v = PyVal.str t := by
  cases v <;> simp only [pyEq] at h
  all_goals first
  | exact congrArg PyVal.str (eq_of_beq h)
  | exact absurd h (by simp)

lemma dictLookup_dictErase_self (d : PyDict) (k : PyVal) :
    dictLookup (dictErase d k) k = Option.none := by
  induction d with
  | nil => rfl
  | cons e rest ih =>
    by_cases h : pyEq e.1 k = true
    · simpa [dictErase, h] using ih
    · simp only [dictErase, h]
      simpa [dictLookup, h] using ih

lemma dictLookup_dictErase_str (d : PyDict) {s t : String} (h : s ≠ t) :
    dictLookup (dictErase d (PyVal.str t)) (PyVal.str s) = dictLookup d (PyVal.str s) := by
  induction d with
  | nil => rfl
  | cons e rest ih =>
    by_cases he : pyEq e.1 (PyVal.str t) = true
    · have hk : e.1 = PyVal.str t := pyEq_str_right he
      have hne : pyEq e.1 (PyVal.str s) = false := by
        rw [hk]
        simp only [pyEq, beq_eq_false_iff_ne, ne_eq]
        exact fun hc => h hc.symm
      simp [dictErase, he, dictLookup, hne, ih]
    · simp only [dictErase, he, if_false, Bool.false_eq_true]
      by_cases hs : pyEq e.1 (PyVal.str s) = true
      · simp [dictLookup, hs]
      · simp [dictLookup, hs, ih]

lemma head?_dropWhile {p : Char → Bool} {l : List Char} {a : Char}
    (h : (l.dropWhile p).head? = some a) : p a = false := by
  induction l with
  | nil => simp at h
  | cons c rest ih =>
    rw [List.dropWhile_cons] at h
    by_cases hc : p c = true
    · rw [if_pos hc] at h
      exact ih h
    · rw [if_neg hc] at h
      simp only [List.head?_cons, Option.some.injEq] at h
      rw [← h]
      exact Bool.eq_false_iff.mpr hc

lemma matchName_sound {cs m rest : List Char}
    (h : matchName cs = some (m, rest)) :
    2 ≤ m.length ∧ ∀ l, m.getLast? = some l → l.isDigit = false := by
  simp only [matchName] at h
  split at h
  · next hlen =>
    simp only [Option.some.injEq, Prod.mk.injEq] at h
    obtain ⟨hm, _⟩ := h
    subst hm
    refine ⟨hlen, fun l hl => ?_⟩
    unfold dropTrailingDigits at hl
    rw [List.getLast?_reverse] at hl
    exact head?_dropWhile hl
  · exact absurd h (by simp)

/-- The ten decimal digit characters. -/
def decDigits : List Char := ['0', '1', '2', '3', '4', '5', '6', '7', '8', '9']

lemma natToDigitsAux_ne_nil {fuel n : Nat} (h : n < fuel) :
    natToDigitsAux fuel n ≠ [] := by
  cases fuel with
  | zero => omega
  | succ fuel =>
    unfold natToDigitsAux
    split <;> simp

lemma digitChar_mem_decDigits : ∀ m : Nat, m < 10 → Nat.digitChar m ∈ decDigits := by
  decide

lemma natToDigitsAux_mem {fuel n : Nat} (h : n < fuel) :
    ∀ c ∈ natToDigitsAux fuel n, c ∈ decDigits := by
  induction fuel generalizing n with
  | zero => omega
  | succ fuel ih =>
    intro c hc
    unfold natToDigitsAux at hc
    by_cases hn : n < 10
    · rw [if_pos hn] at hc
      simp only [List.mem_singleton] at hc
      subst hc
      exact digitChar_mem_decDigits n hn
    · rw [if_neg hn] at hc
      rcases List.mem_append.mp hc with hc | hc
      · have hdiv : n / 10 < fuel := by
          have := Nat.div_lt_self (by omega : 0 < n) (by omega : 1 < 10)
          omega
        exact ih hdiv c hc
      · simp only [List.mem_singleton] at hc
        subst hc
        exact digitChar_mem_decDigits (n % 10) (Nat.mod_lt _ (by omega))

lemma digitVal_digitChar {m : Nat} (h : m < 10) :
    digitVal (Nat.digitChar m) = some m := by
  revert h
  revert m
  decide

lemma foldDigits_natToDigitsAux {fuel : Nat} :
    ∀ {n : Nat}, n < fuel → ∀ a : Nat,
      (natToDigitsAux fuel n).foldl
        (fun acc c =>
          match acc, digitVal c with
          | some a, some d => if d < 10 then some (a * 10 + d) else Option.none
          | _, _ => Option.none)
        (some a) = some (a * 10 ^ (natToDigitsAux fuel n).length + n) := by
  induction fuel with
  | zero => omega
  | succ fuel ih =>
    intro n h a
    unfold natToDigitsAux
    by_cases hn : n < 10
    · rw [if_pos hn]
      simp only [List.foldl_cons, List.foldl_nil, digitVal_digitChar hn, List.length_singleton,
        pow_one]
      rw [if_pos hn]
    · rw [if_neg hn]
      have hdiv : n / 10 < fuel := by
        have := Nat.div_lt_self (by omega : 0 < n) (by omega : 1 < 10)
        omega
      rw [List.foldl_append, ih hdiv a]
      have hm : n % 10 < 10 := Nat.mod_lt _ (by omega)
      simp only [List.foldl_cons, List.foldl_nil, digitVal_digitChar hm, if_pos hm,
        List.length_append, List.length_singleton]
      congr 1
      have hdm : 10 * (n / 10) + n % 10 = n := Nat.div_add_mod n 10
      ring_nf
      omega

lemma foldDigits_natToDigits (n : Nat) : foldDigits 10 (natToDigits n) = some n := by
  unfold foldDigits natToDigits
  have := @foldDigits_natToDigitsAux (n + 1) n (by omega) 0
  simpa using this

lemma natToDigits_ne_nil (n : Nat) : natToDigits n ≠ [] :=
  natToDigitsAux_ne_nil (by omega)

lemma natToDigits_mem {n : Nat} : ∀ c ∈ natToDigits n, c ∈ decDigits :=
  natToDigitsAux_mem (by omega)

lemma dropWhile_eq_self_of_all {p : Char → Bool} {l : List Char}
    (h : ∀ c ∈ l, p c = false) : l.dropWhile p = l := by
  cases l with
  | nil => rfl
  | cons c rest =>
    rw [List.dropWhile_cons, if_neg]
    simp [h c (List.mem_cons_self c rest)]

lemma stripChars_eq_self {cs : List Char} (h : ∀ c ∈ cs, isPySpace c = false) :
    stripChars cs = cs := by
  unfold stripChars
  rw [dropWhile_eq_self_of_all h, dropWhile_eq_self_of_all, List.reverse_reverse]
  intro c hc
  exact h c (List.mem_reverse.mp hc)

lemma decDigits_not_space : ∀ c ∈ decDigits, isPySpace c = false := by decide

lemma decDigits_not_sign :
    ∀ c ∈ decDigits, (c == '-') = false ∧ (c == '+') = false := by decide

lemma decDigits_not_quote :
    ∀ c ∈ decDigits, ((c == squote) || (c == dquote)) = false := by decide

lemma unquote_natDigits (n : Nat) : unquote (String.mk (natToDigits n)) = String.mk (natToDigits n) := by
  unfold unquote
  cases hd : natToDigits n with
  | nil => exact absurd hd (natToDigits_ne_nil n)
  | cons c₀ tail =>
    cases tail with
    | nil => rfl
    | cons c₁ tail₂ =>
      have hc₀ : c₀ ∈ decDigits := by
        apply natToDigits_mem
        rw [hd]
        exact List.mem_cons_self _ _
      simp [decDigits_not_quote c₀ hc₀]

lemma unquote_intToStr (v : Int) : unquote (intToStr v) = intToStr v := by
  cases v with
  | ofNat n => exact unquote_natDigits n
  | negSucc m =>
    show unquote (String.mk ('-' :: natToDigits (m + 1))) = _
    unfold unquote
    cases hd : natToDigits (m + 1) with
    | nil => exact absurd hd (natToDigits_ne_nil (m + 1))
    | cons c₀ tail =>
      rw [show intToStr (Int.negSucc m) = String.mk ('-' :: natToDigits (m + 1)) from rfl, hd]
      rfl

lemma pyIntOfString_natDigits (n : Nat) :
    pyIntOfString (String.mk (natToDigits n)) 10 = some (Int.ofNat n) := by
  unfold pyIntOfString
  rw [if_neg (by omega)]
  show (let cs := stripChars (natToDigits n); _) = _
  rw [show stripChars (natToDigits n) = natToDigits n from
    stripChars_eq_self (fun c hc => decDigits_not_space c (natToDigits_mem c hc))]
  cases hd : natToDigits n with
  | nil => exact absurd hd (natToDigits_ne_nil n)
  | cons c₀ tail =>
    have hc₀ : c₀ ∈ decDigits := by
      apply natToDigits_mem
      rw [hd]
      exact List.mem_cons_self _ _
    have hsign := decDigits_not_sign c₀ hc₀
    simp only [hsign.1, hsign.2, Bool.false_eq_true, if_false]
    show (let pref := applyPrefix (10 : Int).toNat (c₀ :: tail); _) = _
    rw [show applyPrefix (10 : Int).toNat (c₀ :: tail) = (10, c₀ :: tail) from rfl]
    simp only [List.isEmpty_cons, Bool.false_eq_true, if_false]
    have hfold : foldDigits 10 (c₀ :: tail) = some n := by
      rw [← hd]
      exact foldDigits_natToDigits n
    rw [hfold]

lemma pyIntOfString_intToStr (v : Int) : pyIntOfString (intToStr v) 10 = some v := by
  cases v with
  | ofNat n => exact pyIntOfString_natDigits n
  | negSucc m =>
    show pyIntOfString (String.mk ('-' :: natToDigits (m + 1))) 10 = _
    unfold pyIntOfString
    rw [if_neg (by omega)]
    show (let cs := stripChars ('-' :: natToDigits (m + 1)); _) = _
    rw [show stripChars ('-' :: natToDigits (m + 1)) = '-' :: natToDigits (m + 1) from
      stripChars_eq_self (by
        intro c hc
        rcases List.mem_cons.mp hc with rfl | hc
        · rfl
        · exact decDigits_not_space c (natToDigits_mem c hc))]
    simp only [show (('-' : Char) == '-') = true from rfl, if_pos]
    show (let pref := applyPrefix (10 : Int).toNat (natToDigits (m + 1)); _) = _
    rw [show applyPrefix (10 : Int).toNat (natToDigits (m + 1)) = (10, natToDigits (m + 1)) from rfl]
    have hne : (natToDigits (m + 1)).isEmpty = false := by
      cases hd : natToDigits (m + 1) with
      | nil => exact absurd hd (natToDigits_ne_nil (m + 1))
      | cons c₀ tail => rfl
    simp only [hne, Bool.false_eq_true, if_false]
    rw [foldDigits_natToDigits (m + 1)]
    simp only [Option.some.injEq, Int.negSucc_eq, Int.ofNat_eq_coe]
    push_cast
    ring

lemma intCheckBounds_ok {kwargs : PyDict} {n : Int} {ret x : PyVal}
    (h : intCheckBounds kwargs n ret = Except.ok x) : x = ret := by
  unfold intCheckBounds at h
  split at h
  · split at h <;> simp_all
  · split at h
    · split at h <;> simp_all
    · simpa using h.symm

lemma dropWhile_head_false {p : Char → Bool} {l : List Char} {a : Char}
    (h : l.head? = some a) (hp : p a = false) : l.dropWhile p = l := by
  cases l with
  | nil => simp at h
  | cons c t =>
    simp only [List.head?_cons, Option.some.injEq] at h
    subst h
    rw [List.dropWhile_cons, if_neg (by simp [hp])]

lemma unquote_eq_self_of_head {s : String} {c : Char} (h : s.data.head? = some c)
    (h1 : (c == squote) = false) (h2 : (c == dquote) = false) : unquote s = s := by
  have hne : s.data ≠ [] := by
    intro hd
    rw [hd] at h
    cases h
  obtain ⟨c₀, rest, hd⟩ := List.exists_cons_of_ne_nil hne
  have hc : c₀ = c := by
    rw [hd] at h
    simpa using h
  subst hc
  unfold unquote
  rw [hd]
  cases rest with
  | nil => rfl
  | cons c₁ rest₂ => simp [h1, h2]

lemma stripChars_append_crlf {row : List Char} (hne : row ≠ [])
    (hh : ∀ a, row.head? = some a → isPySpace a = false)
    (hl : ∀ a, row.getLast? = some a → isPySpace a = false) :
    stripChars (row ++ ['\r', '\n']) = row := by
  obtain ⟨h₀, t, rfl⟩ := List.exists_cons_of_ne_nil hne
  unfold stripChars
  have hh₀ : isPySpace h₀ = false := hh h₀ rfl
  rw [show (h₀ :: t) ++ ['\r', '\n'] = h₀ :: (t ++ ['\r', '\n']) from rfl]
  rw [dropWhile_head_false (List.head?_cons) hh₀]
  rw [show h₀ :: (t ++ ['\r', '\n']) = (h₀ :: t) ++ ['\r', '\n'] from rfl]
  rw [List.reverse_append]
  rw [show (['\r', '\n'] : List Char).reverse = '\n' :: ['\r'] from rfl]
  rw [show ('\n' :: ['\r']) ++ (h₀ :: t).reverse = '\n' :: '\r' :: (h₀ :: t).reverse from rfl]
  rw [List.dropWhile_cons, if_pos (by decide), List.dropWhile_cons, if_pos (by decide)]
  rcases hrev : (h₀ :: t).reverse.head? with _ | a
  · simp at hrev
  · have : isPySpace a = false := by
      apply hl
      rw [← List.head?_reverse]
      exact hrev
    rw [dropWhile_head_false hrev this, List.reverse_reverse]

lemma allStrs_map_str : ∀ cells : List String, allStrs (cells.map PyVal.str) = some cells := by
  intro cells
  induction cells with
  | nil => rfl
  | cons c rest ih => simp [allStrs, ih]

lemma not_nl_of_not_pyspace {ch : Char} (h : isPySpace ch = false) :
    (ch == '\n') = false ∧ (ch == '\r') = false ∧ (ch == ' ') = false := by
  unfold isPySpace at h
  simp only [Bool.or_eq_false_iff] at h
  exact ⟨h.1.1.1.2, h.1.1.2, h.1.1.1.1.1⟩

lemma cellOk_parts {c : String} (h : cellOk c = true) :
    c.data ≠ [] ∧ unquote c = c ∧
      (csvNeedsQuote c = true ∨
        ((∀ a, c.data.head? = some a → isPySpace a = false) ∧
         (∀ a, c.data.getLast? = some a → isPySpace a = false))) := by
  unfold cellOk at h
  simp only [Bool.and_eq_true, Bool.or_eq_true] at h
  obtain ⟨⟨hne, hunq⟩, hq⟩ := h
  refine ⟨?_, eq_of_beq hunq, ?_⟩
  · intro hd
    rw [hd] at hne
    simp at hne
  · rcases hq with hq | ⟨hh, hl⟩
    · exact Or.inl hq
    · refine Or.inr ⟨fun a ha => ?_, fun a ha => ?_⟩
      · rw [ha] at hh
        simpa using hh
      · rw [ha] at hl
        simpa using hl

lemma notSpecial_of_needsQuote_false {c : String} (h : csvNeedsQuote c = false) :
    ∀ ch ∈ c.data, (ch == ',') = false ∧ (ch == dquote) = false ∧
      (ch == '\r') = false ∧ (ch == '\n') = false := by
  intro ch hm
  unfold csvNeedsQuote at h
  have := List.any_eq_false.mp h ch hm
  simp only [Bool.or_eq_true, not_or, Bool.not_eq_true] at this
  exact ⟨this.1.1.1, this.1.1.2, this.1.2, this.2⟩

lemma cell_not_isEmpty {c : String} (h : cellOk c = true) : c.isEmpty = false := by
  by_contra hc
  have h1 : c.isEmpty = true := by
    cases he : c.isEmpty
    · exact absurd he hc
    · rfl
  have h2 : c = "" := (String.isEmpty_iff c).mp h1
  have := (cellOk_parts h).1
  rw [h2] at this
  exact this rfl

lemma map_unquote_id {cells : List String} (h : ∀ c ∈ cells, unquote c = c) :
    cells.map unquote = cells := by
  induction cells with
  | nil => rfl
  | cons c rest ih =>
    simp only [List.map_cons]
    rw [h c (List.mem_cons_self _ _), ih (fun x hx => h x (List.mem_cons_of_mem _ hx))]

lemma csvRun_recStart_cons {c : Char} {cs : List Char}
    (h1 : (c == '\n') = false) (h2 : (c == '\r') = false) :
    csvRun CsvState.recStart (c :: cs) = csvRun CsvState.fieldStart (c :: cs) := by
  simp [csvRun, h1, h2]

lemma csvRun_inField_append {cs : List Char}
    (h : ∀ ch ∈ cs, (ch == ',') = false ∧ (ch == '\r') = false ∧ (ch == '\n') = false) :
    ∀ acc l, csvRun (CsvState.inField acc) (cs ++ l) =
      csvRun (CsvState.inField (acc ++ cs)) l := by
  induction cs with
  | nil => intro acc l; simp
  | cons ch t ih =>
    intro acc l
    obtain ⟨h1, h2, h3⟩ := h ch (List.mem_cons_self _ _)
    show csvRun (CsvState.inField acc) (ch :: (t ++ l)) = _
    simp only [csvRun, h1, h2, h3, Bool.or_self, Bool.false_eq_true, if_false, Bool.or_false]
    rw [ih (fun x hx => h x (List.mem_cons_of_mem _ hx)) (acc ++ [ch]) l]
    simp

lemma csvRun_inQuoted_escape (cs : List Char) :
    ∀ acc l, csvRun (CsvState.inQuoted acc) (csvEscape cs ++ l) =
      csvRun (CsvState.inQuoted (acc ++ cs)) l := by
  induction cs with
  | nil => intro acc l; simp [csvEscape]
  | cons ch t ih =>
    intro acc l
    by_cases hq : (ch == dquote) = true
    · have hch : ch = dquote := eq_of_beq hq
      subst hch
      rw [show csvEscape (dquote :: t) = dquote :: dquote :: csvEscape t by simp [csvEscape]]
      show csvRun (CsvState.inQuoted acc) (dquote :: (dquote :: (csvEscape t ++ l))) = _
      simp only [csvRun, beq_self_eq_true, if_true, if_pos]
      rw [ih (acc ++ [dquote]) l]
      simp
    · have hq' : (ch == dquote) = false := by
        cases hqe : ch == dquote
        · rfl
        · exact absurd hqe hq
      rw [show csvEscape (ch :: t) = ch :: csvEscape t by simp [csvEscape, hq']]
      show csvRun (CsvState.inQuoted acc) (ch :: (csvEscape t ++ l)) = _
      simp only [csvRun, hq', Bool.false_eq_true, if_false]
      rw [ih (acc ++ [ch]) l]
      simp

lemma dquote_entry_facts :
    ((dquote == '\n') = false) ∧ ((dquote == '\r') = false) ∧ ((dquote == ' ') = false) ∧
      ((dquote == dquote) = true) := by decide

lemma csvRun_cell_end {c : String} (h : cellOk c = true) :
    csvRun CsvState.fieldStart (csvQuoteCell c) = [c] := by
  obtain ⟨hne, _, hq⟩ := cellOk_parts h
  unfold csvQuoteCell
  by_cases hnq : csvNeedsQuote c = true
  · rw [if_pos hnq]
    show csvRun CsvState.fieldStart (dquote :: (csvEscape c.data ++ [dquote])) = [c]
    obtain ⟨e1, e2, e3, _⟩ := dquote_entry_facts
    simp only [csvRun, e1, e2, e3, beq_self_eq_true, Bool.or_self, Bool.false_eq_true,
      if_false, if_true]
    rw [csvRun_inQuoted_escape c.data [] [dquote]]
    show [String.mk ([] ++ c.data)] = [c]
    simp
  · have hnq' : csvNeedsQuote c = false := by
      cases hqe : csvNeedsQuote c
      · rfl
      · exact absurd hqe hnq
    rw [if_neg hnq]
    rcases hq with hq | ⟨hh, _⟩
    · exact absurd hq hnq
    obtain ⟨h₀, t, hd⟩ := List.exists_cons_of_ne_nil hne
    have hsp : isPySpace h₀ = false := by
      apply hh
      rw [hd]
      rfl
    obtain ⟨n1, n2, n3⟩ := not_nl_of_not_pyspace hsp
    have hmem := notSpecial_of_needsQuote_false hnq'
    obtain ⟨s1, s2, _, _⟩ := hmem h₀ (by rw [hd]; exact List.mem_cons_self _ _)
    rw [hd]
    show csvRun CsvState.fieldStart (h₀ :: t) = [c]
    rw [show (h₀ :: t : List Char) = h₀ :: (t ++ []) by simp]
    simp only [csvRun, n1, n2, n3, s1, s2, Bool.or_self, Bool.false_eq_true, if_false]
    rw [csvRun_inField_append (fun x hx => by
      obtain ⟨a1, _, a3, a4⟩ := hmem x (by rw [hd]; exact List.mem_cons_of_mem _ hx)
      exact ⟨a1, a3, a4⟩) [h₀] []]
    show [String.mk ([h₀] ++ t)] = [c]
    rw [show ([h₀] ++ t : List Char) = h₀ :: t from rfl, ← hd]

lemma csvRun_cell_sep {c : String} (h : cellOk c = true) (l : List Char) :
    csvRun CsvState.fieldStart (csvQuoteCell c ++ ',' :: l) =
      c :: csvRun CsvState.fieldStart l := by
  obtain ⟨hne, _, hq⟩ := cellOk_parts h
  unfold csvQuoteCell
  by_cases hnq : csvNeedsQuote c = true
  · rw [if_pos hnq]
    show csvRun CsvState.fieldStart (dquote :: ((csvEscape c.data ++ [dquote]) ++ ',' :: l)) = _
    obtain ⟨e1, e2, e3, _⟩ := dquote_entry_facts
    simp only [csvRun, e1, e2, e3, beq_self_eq_true, Bool.or_self, Bool.false_eq_true,
      if_false, if_true]
    rw [List.append_assoc, csvRun_inQuoted_escape c.data [] ([dquote] ++ ',' :: l)]
    have q1 : ((',' : Char) == dquote) = false := by decide
    show csvRun (CsvState.quoteQ ([] ++ c.data)) (',' :: l) = _
    simp only [List.nil_append, csvRun, q1, beq_self_eq_true, Bool.false_eq_true,
      if_false, if_true]
  · have hnq' : csvNeedsQuote c = false := by
      cases hqe : csvNeedsQuote c
      · rfl
      · exact absurd hqe hnq
    rw [if_neg hnq]
    rcases hq with hq | ⟨hh, _⟩
    · exact absurd hq hnq
    obtain ⟨h₀, t, hd⟩ := List.exists_cons_of_ne_nil hne
    have hsp : isPySpace h₀ = false := by
      apply hh
      rw [hd]
      rfl
    obtain ⟨n1, n2, n3⟩ := not_nl_of_not_pyspace hsp
    have hmem := notSpecial_of_needsQuote_false hnq'
    obtain ⟨s1, s2, _, _⟩ := hmem h₀ (by rw [hd]; exact List.mem_cons_self _ _)
    rw [hd]
    show csvRun CsvState.fieldStart (h₀ :: (t ++ ',' :: l)) = _
    simp only [csvRun, n1, n2, n3, s1, s2, Bool.or_self, Bool.false_eq_true, if_false]
    rw [csvRun_inField_append (fun x hx => by
      obtain ⟨a1, _, a3, a4⟩ := hmem x (by rw [hd]; exact List.mem_cons_of_mem _ hx)
      exact ⟨a1, a3, a4⟩) [h₀] (',' :: l)]
    show csvRun (CsvState.inField ([h₀] ++ t)) (',' :: l) = _
    simp only [csvRun, beq_self_eq_true, if_true]
    rw [show ([h₀] ++ t : List Char) = h₀ :: t from rfl, ← hd]

lemma csvQuoteCell_ne_nil {c : String} (h : cellOk c = true) : csvQuoteCell c ≠ [] := by
  unfold csvQuoteCell
  split
  · simp
  · exact (cellOk_parts h).1

lemma csvQuoteCell_head_ok {c : String} (h : cellOk c = true) :
    ∀ a, (csvQuoteCell c).head? = some a → isPySpace a = false := by
  intro a ha
  unfold csvQuoteCell at ha
  split at ha
  · simp only [List.head?_cons, Option.some.injEq] at ha
    subst ha
    decide
  · next hnq =>
    obtain ⟨_, _, hq⟩ := cellOk_parts h
    rcases hq with hq | ⟨hh, _⟩
    · exact absurd hq (by simpa using hnq)
    · exact hh a ha

lemma csvQuoteCell_last_ok {c : String} (h : cellOk c = true) :
    ∀ a, (csvQuoteCell c).getLast? = some a → isPySpace a = false := by
  intro a ha
  unfold csvQuoteCell at ha
  split at ha
  · rw [show dquote :: (csvEscape c.data ++ [dquote]) =
      (dquote :: csvEscape c.data) ++ [dquote] from rfl, List.getLast?_concat] at ha
    simp only [Option.some.injEq] at ha
    subst ha
    decide
  · next hnq =>
    obtain ⟨_, _, hq⟩ := cellOk_parts h
    rcases hq with hq | ⟨_, hl⟩
    · exact absurd hq (by simpa using hnq)
    · exact hl a ha

lemma csvRow_ne_nil {c : String} {rest : List String} (h : cellOk c = true) :
    csvRow (c :: rest) ≠ [] := by
  cases rest with
  | nil => exact csvQuoteCell_ne_nil h
  | cons r rs =>
    show csvQuoteCell c ++ ',' :: csvRow (r :: rs) ≠ []
    simp

lemma csvRow_head_ok {c : String} {rest : List String} (h : cellOk c = true) :
    ∀ a, (csvRow (c :: rest)).head? = some a → isPySpace a = false := by
  intro a ha
  cases rest with
  | nil => exact csvQuoteCell_head_ok h a ha
  | cons r rs =>
    obtain ⟨q₀, qt, hq⟩ := List.exists_cons_of_ne_nil (csvQuoteCell_ne_nil h)
    rw [show csvRow (c :: r :: rs) = csvQuoteCell c ++ ',' :: csvRow (r :: rs) from rfl,
      hq] at ha
    simp only [List.cons_append, List.head?_cons, Option.some.injEq] at ha
    subst ha
    exact csvQuoteCell_head_ok h _ (by rw [hq]; rfl)

lemma csvRow_last_ok : ∀ (cells : List String), cells.all cellOk = true →
    ∀ a, (csvRow cells).getLast? = some a → isPySpace a = false := by
  intro cells
  induction cells with
  | nil => intro _ a ha; simp [csvRow] at ha
  | cons c rest ih =>
    intro hall a ha
    have hc : cellOk c = true := by
      have := List.all_eq_true.mp hall c (List.mem_cons_self _ _)
      simpa using this
    have hrest : rest.all cellOk = true :=
      List.all_eq_true.mpr (fun x hx => List.all_eq_true.mp hall x (List.mem_cons_of_mem _ hx))
    cases rest with
    | nil => exact csvQuoteCell_last_ok hc a ha
    | cons r rs =>
      have hr : cellOk r = true := by
        have := List.all_eq_true.mp hrest r (List.mem_cons_self _ _)
        simpa using this
      rw [show csvRow (c :: r :: rs) = csvQuoteCell c ++ ',' :: csvRow (r :: rs) from rfl,
        List.getLast?_append_of_ne_nil _ (by simp),
        show (',' :: csvRow (r :: rs) : List Char) = [','] ++ csvRow (r :: rs) from rfl,
        List.getLast?_append_of_ne_nil _ (csvRow_ne_nil hr)] at ha
      exact ih hrest a ha

lemma csvRun_row : ∀ (cells : List String), cells.all cellOk = true → cells ≠ [] →
    csvRun CsvState.fieldStart (csvRow cells) = cells := by
  intro cells
  induction cells with
  | nil => intro _ h; exact absurd rfl h
  | cons c rest ih =>
    intro hall _
    have hc : cellOk c = true := by
      have := List.all_eq_true.mp hall c (List.mem_cons_self _ _)
      simpa using this
    have hrest : rest.all cellOk = true :=
      List.all_eq_true.mpr (fun x hx => List.all_eq_true.mp hall x (List.mem_cons_of_mem _ hx))
    cases rest with
    | nil => exact csvRun_cell_end hc
    | cons r rs =>
      show csvRun CsvState.fieldStart (csvQuoteCell c ++ ',' :: csvRow (r :: rs)) = _
      rw [csvRun_cell_sep hc, ih hrest (by simp)]

lemma listConvertCells_roundtrip {cells : List String} (hall : cells.all cellOk = true) :
    listConvertCells (csvFormatCells cells) = cells := by
  cases cells with
  | nil => rfl
  | cons c rest =>
    have hc : cellOk c = true := by
      have := List.all_eq_true.mp hall c (List.mem_cons_self _ _)
      simpa using this
    have hstrip : stripChars (csvRow (c :: rest) ++ ['\r', '\n']) = csvRow (c :: rest) :=
      stripChars_append_crlf (csvRow_ne_nil hc) (csvRow_head_ok hc) (csvRow_last_ok _ hall)
    have hcells : csvCells (csvFormatCells (c :: rest)) = c :: rest := by
      unfold csvFormatCells csvCells
      rw [hstrip]
      show csvRun CsvState.recStart (csvRow (c :: rest)) = c :: rest
      obtain ⟨q₀, qt, hq⟩ := List.exists_cons_of_ne_nil (csvRow_ne_nil hc)
      have hsp : isPySpace q₀ = false := by
        apply csvRow_head_ok hc
        rw [hq]
        rfl
      obtain ⟨n1, n2, _⟩ := not_nl_of_not_pyspace hsp
      rw [hq, csvRun_recStart_cons n1 n2, ← hq]
      exact csvRun_row _ hall (by simp)
    unfold listConvertCells
    rw [hcells]
    rw [map_unquote_id (fun x hx => (cellOk_parts (by
      have := List.all_eq_true.mp hall x hx
      simpa using this)).2.1)]
    apply List.filter_eq_self.mpr
    intro x hx
    have : cellOk x = true := by
      have := List.all_eq_true.mp hall x hx
      simpa using this
    simp [cell_not_isEmpty this]

lemma shlexSafe_facts {ch : Char} (h : shlexSafeChar ch = true) :
    shlexWs ch = false ∧ (ch == squote) = false ∧ (ch == dquote) = false ∧
      (ch == backslash) = false := by
  unfold shlexSafeChar at h
  simp only [Bool.not_eq_true', Bool.or_eq_false_iff] at h
  unfold shlexWs
  obtain ⟨⟨⟨⟨⟨⟨hsp, ht⟩, hr⟩, hn⟩, hs⟩, hd⟩, hb⟩ := h
  exact ⟨by simp [hsp, ht, hr, hn], hs, hd, hb⟩

lemma shlexRun_word_append {w : List Char} (h : ∀ ch ∈ w, shlexSafeChar ch = true) :
    ∀ acc q l, shlexRun (ShState.word acc q) (w ++ l) =
      shlexRun (ShState.word (acc ++ w) q) l := by
  induction w with
  | nil => intro acc q l; simp
  | cons ch t ih =>
    intro acc q l
    obtain ⟨h1, h2, h3, h4⟩ := shlexSafe_facts (h ch (List.mem_cons_self _ _))
    show shlexRun (ShState.word acc q) (ch :: (t ++ l)) = _
    simp only [shlexRun, h1, h2, h3, h4, Bool.false_eq_true, if_false]
    rw [ih (fun x hx => h x (List.mem_cons_of_mem _ hx)) (acc ++ [ch]) q l]
    simp

lemma cmdArgBody_plain {cs : List Char}
    (h : ∀ ch ∈ cs, (ch == backslash) = false ∧ (ch == dquote) = false) (nq : Bool) :
    cmdArgBody nq cs 0 = cs := by
  induction cs with
  | nil => simp [cmdArgBody]
  | cons ch t ih =>
    obtain ⟨h1, h2⟩ := h ch (List.mem_cons_self _ _)
    simp only [cmdArgBody, h1, h2, Bool.false_eq_true, if_false, List.replicate_zero,
      List.nil_append]
    rw [ih (fun x hx => h x (List.mem_cons_of_mem _ hx))]

lemma cmdArgOk_parts {a : String} (h : cmdArgOk a = true) :
    a.data ≠ [] ∧ ∀ ch ∈ a.data, shlexSafeChar ch = true := by
  unfold cmdArgOk at h
  simp only [Bool.and_eq_true] at h
  obtain ⟨hne, hall⟩ := h
  refine ⟨?_, fun ch hm => List.all_eq_true.mp hall ch hm⟩
  intro hd
  rw [hd] at hne
  simp at hne

lemma cmdArgRender_safe {a : String} (h : cmdArgOk a = true) : cmdArgRender a = a.data := by
  obtain ⟨hne, hsafe⟩ := cmdArgOk_parts h
  unfold cmdArgRender
  have hnq : (a.data.any (fun c => c == ' ' || c == '\t') || a.data.isEmpty) = false := by
    have h1 : a.data.any (fun c => c == ' ' || c == '\t') = false := by
      rw [← Bool.not_eq_true, List.any_eq_true]
      rintro ⟨x, hx, hor⟩
      obtain ⟨hws, _, _, _⟩ := shlexSafe_facts (hsafe x hx)
      unfold shlexWs at hws
      simp only [Bool.or_eq_false_iff] at hws
      rcases Bool.or_eq_true_iff.mp hor with hsp | ht
      · rw [hws.1.1.1] at hsp
        exact absurd hsp (by simp)
      · rw [hws.1.1.2] at ht
        exact absurd ht (by simp)
    have h2 : a.data.isEmpty = false := by
      cases hd : a.data
      · exact absurd hd hne
      · rfl
    rw [h1, h2]
    rfl
  rw [hnq]
  simp only [Bool.false_eq_true, if_false, List.nil_append, List.append_nil]
  exact cmdArgBody_plain (fun ch hm => ⟨(shlexSafe_facts (hsafe ch hm)).2.2.2,
    (shlexSafe_facts (hsafe ch hm)).2.2.1⟩) false

lemma shlexRun_join : ∀ (args : List String), args.all cmdArgOk = true →
    shlexRun ShState.start (cmdJoin args) = Except.ok args := by
  intro args
  induction args with
  | nil => intro _; rfl
  | cons a rest ih =>
    intro hall
    have ha : cmdArgOk a = true := by
      have := List.all_eq_true.mp hall a (List.mem_cons_self _ _)
      simpa using this
    have hrest : rest.all cmdArgOk = true :=
      List.all_eq_true.mpr (fun x hx => List.all_eq_true.mp hall x (List.mem_cons_of_mem _ hx))
    obtain ⟨hne, hsafe⟩ := cmdArgOk_parts ha
    obtain ⟨h₀, t, hd⟩ := List.exists_cons_of_ne_nil hne
    have hs₀ := shlexSafe_facts (hsafe h₀ (by rw [hd]; exact List.mem_cons_self _ _))
    obtain ⟨w1, w2, w3, w4⟩ := hs₀
    have hword : ∀ l, shlexRun ShState.start (a.data ++ l) =
        shlexRun (ShState.word a.data false) l := by
      intro l
      rw [hd]
      show shlexRun ShState.start (h₀ :: (t ++ l)) = _
      simp only [shlexRun, w1, w2, w3, w4, Bool.false_eq_true, if_false]
      rw [shlexRun_word_append (fun x hx => hsafe x (by rw [hd]; exact List.mem_cons_of_mem _ hx))
        [h₀] false l]
      rfl
    cases rest with
    | nil =>
      show shlexRun ShState.start (cmdArgRender a) = _
      rw [cmdArgRender_safe ha, show a.data = a.data ++ [] by simp, hword []]
      show shlexRun (ShState.word a.data false) [] = Except.ok [a]
      have : a.data.isEmpty = false := by
        rw [hd]
        rfl
      simp [shlexRun, this]
    | cons r rs =>
      show shlexRun ShState.start (cmdArgRender a ++ ' ' :: cmdJoin (r :: rs)) = _
      rw [cmdArgRender_safe ha, hword (' ' :: cmdJoin (r :: rs))]
      have hnemp : a.data.isEmpty = false := by
        rw [hd]
        rfl
      show shlexRun (ShState.word a.data false) (' ' :: cmdJoin (r :: rs)) = _
      simp only [shlexRun, show shlexWs ' ' = true from rfl, if_true, hnemp,
        Bool.false_and, Bool.false_eq_true, if_false]
      rw [ih hrest]

lemma cmdJoin_head_safe {a : String} {rest : List String} (h : cmdArgOk a = true) :
    ∀ x, (cmdJoin (a :: rest)).head? = some x → shlexSafeChar x = true := by
  intro x hx
  obtain ⟨hne, hsafe⟩ := cmdArgOk_parts h
  obtain ⟨h₀, t, hd⟩ := List.exists_cons_of_ne_nil hne
  have hrend : cmdArgRender a = a.data := cmdArgRender_safe h
  cases rest with
  | nil =>
    rw [show cmdJoin [a] = cmdArgRender a from rfl, hrend, hd] at hx
    simp only [List.head?_cons, Option.some.injEq] at hx
    subst hx
    exact hsafe _ (by rw [hd]; exact List.mem_cons_self _ _)
  | cons r rs =>
    rw [show cmdJoin (a :: r :: rs) = cmdArgRender a ++ ' ' :: cmdJoin (r :: rs) from rfl,
      hrend, hd] at hx
    simp only [List.cons_append, List.head?_cons, Option.some.injEq] at hx
    subst hx
    exact hsafe _ (by rw [hd]; exact List.mem_cons_self _ _)

/-! ### Claim theorems -/

/-- C2 (code bug): `IntValidator.convert` tests the `max` bound with
`self.kwargs.get('max')`, a truthiness test, so a supplied bound of `0` is
silently ignored: with `integer(max=0)` the raw value `"5"` converts to
`5` and is accepted although `5 > 0`, while the claim (and the adjacent
`min` check, which uses `is not None`) requires rejection. -/
theorem c2_int_max_zero_ignored :
    IntValidator.convert [(PyVal.str "max", PyVal.int 0)]
        (BaseValidator.normalize (PyVal.str "5")) = Except.ok (PyVal.int 5) ∧
      (5 : Int) > 0 ∧
      IntValidator.convert [(PyVal.str "min", PyVal.int 1), (PyVal.str "max", PyVal.int 10)]
        (BaseValidator.normalize (PyVal.str "5")) = Except.ok (PyVal.int 5) ∧
      IntValidator.convert [(PyVal.str "min", PyVal.int 1), (PyVal.str "max", PyVal.int 10)]
        (BaseValidator.normalize (PyVal.str "0")) =
        Except.error (PyErr.validationError "Integer value must be > 1" (PyVal.int 0)) ∧
      IntValidator.convert [(PyVal.str "min", PyVal.int 1), (PyVal.str "max", PyVal.int 10)]
        (BaseValidator.normalize (PyVal.str "11")) =
        Except.error (PyErr.validationError "Integer value exceeds maximum 10" (PyVal.int 11)) ∧
      IntValidator.convert [(PyVal.str "min", PyVal.int 1), (PyVal.str "max", PyVal.int 10)]
        (BaseValidator.normalize (PyVal.str "1")) = Except.ok (PyVal.int 1) ∧
      IntValidator.convert [(PyVal.str "min", PyVal.int 1), (PyVal.str "max", PyVal.int 10)]
        (BaseValidator.normalize (PyVal.str "10")) = Except.ok (PyVal.int 10) :=
  ⟨rfl, by decide, rfl, rfl, rfl, rfl, rfl⟩

/-- C3 (code bug): `BoolValidator.convert` rejects a raw value outside the
boolean token set with a bare `KeyError` from the dict subscript
`valid_bools[value.lower()]`, not with the module's structured
`ValidationError`, contradicting the claim that every rejection is a
structured validation error. -/
theorem c3_bool_convert_raises_keyerror :
    BoolValidator.convert (BaseValidator.normalize (PyVal.str "maybe")) =
      Except.error (PyErr.keyError (PyVal.str "maybe")) ∧
      ∀ msg v, PyErr.keyError (PyVal.str "maybe") ≠ PyErr.validationError msg v :=
  ⟨rfl, fun _ _ h => PyErr.noConfusion h⟩

/-- The check string of the tokenizer claim. -/
def c6str : String := "integer(min=1, max=10, default=5)"

/-- The token sequence the scanner produces for `c6str`: fourteen tokens,
whitespace contributing none. -/
def c6Toks : List Token :=
  [⟨"integer", 1, PyVal.str "integer", (0, 7)⟩,
   ⟨"(", 16, PyVal.str "(", (7, 8)⟩,
   ⟨"min", 1, PyVal.str "min", (8, 11)⟩,
   ⟨"=", 16, PyVal.str "=", (11, 12)⟩,
   ⟨"1", 4, PyVal.int 1, (12, 13)⟩,
   ⟨",", 16, PyVal.str ",", (13, 14)⟩,
   ⟨"max", 1, PyVal.str "max", (15, 18)⟩,
   ⟨"=", 16, PyVal.str "=", (18, 19)⟩,
   ⟨"10", 4, PyVal.int 10, (19, 21)⟩,
   ⟨",", 16, PyVal.str ",", (21, 22)⟩,
   ⟨"default", 1, PyVal.str "default", (23, 30)⟩,
   ⟨"=", 16, PyVal.str "=", (30, 31)⟩,
   ⟨"5", 4, PyVal.int 5, (31, 32)⟩,
   ⟨")", 16, PyVal.str ")", (32, 33)⟩]

/-- C6 (counterexample): tokenizing `"integer(min=1, max=10, default=5)"`
yields exactly the enumerated token sequence — identifier/symbol/number
values as listed — but that sequence has fourteen tokens, not thirteen as
the claim states. -/
theorem c6_thirteen_tokens_counterexample :
    CheckParser.tokenize c6str = Except.ok c6Toks ∧
      c6Toks.length = 14 ∧ ¬c6Toks.length = 13 :=
  ⟨rfl, rfl, by decide⟩

/-- C6 (amended): tokenizing the same check string twice yields identical
token sequences (tokenization is a pure function of the input), and
tokenizing `"integer(min=1, max=10, default=5)"` yields exactly the
fourteen tokens id `integer`, sym `(`, id `min`, sym `=`, num 1, sym `,`,
id `max`, sym `=`, num 10, sym `,`, id `default`, sym `=`, num 5, sym `)`,
with the whitespace producing no tokens. -/
theorem c6_tokenize_exact :
    (∀ s : String, CheckParser.tokenize s = CheckParser.tokenize s) ∧
      CheckParser.tokenize c6str = Except.ok c6Toks :=
  ⟨fun _ => rfl, rfl⟩

/-- C8: parsing `"integer(min=)"` fails with a `CheckParseError` — the `)`
after `=` is handed to `_parse_expression`, which falls into the
list-expression branch and hits end of input — rather than succeeding with
any declaration. -/
theorem c8_missing_kwarg_value_rejected :
    Check.parse "integer(min=)" =
        Except.error (CheckErr.parseError "Reached end-of-input when reading token") ∧
      CheckParser.parse "integer(min=)" =
        Except.error (CheckErr.parseError "Reached end-of-input when reading token") :=
  ⟨rfl, rfl⟩

/-- C4: parsing `"tuple(default=list(1,2,3))"` yields the declaration with
`default = [1,2,3]` extracted and the keyword mapping passed to the
validator empty; and whenever the argument list of a `list(...)`
sub-expression parses with a nonempty keyword mapping, `_parse_list_expr`
fails with the `CheckError` about keyword arguments. -/
theorem c4_nested_list_default :
    Check.parse "tuple(default=list(1,2,3))" =
        Except.ok ⟨PyVal.str "tuple", [], [],
          some (PyVal.list [PyVal.int 1, PyVal.int 2, PyVal.int 3]), Option.none⟩ ∧
      ∀ (fuel : Nat) (l l₁ rest : Lexer) (tok : Token) (args : List PyVal) (kwargs : PyDict),
        lexNext l = Except.ok (tok, l₁) → tok.text = "(" →
        parseArgumentList fuel l₁ = Except.ok ((args, kwargs), rest) → kwargs ≠ [] →
        parseListExpr (fuel + 1) l =
          Except.error (CheckErr.checkError "list expressions may not contain keyword arguments") := by
  constructor
  · rfl
  · intro fuel l l₁ rest tok args kwargs h1 h2 h3 h4
    unfold parseArgumentList at h3
    simp only [parseListExpr, h1]
    rw [h2]
    simp only [ne_eq, not_true_eq_false, if_false, reduceIte]
    rw [h3]
    cases kwargs with
    | nil => exact absurd rfl h4
    | cons e rest₂ => rfl

/-- The lexer input of the C4 witness: the token sequence of `"(ab=1)"`. -/
def c4lexer : Lexer :=
  [⟨"(", 16, PyVal.str "(", (0, 1)⟩, ⟨"ab", 1, PyVal.str "ab", (1, 3)⟩,
   ⟨"=", 16, PyVal.str "=", (3, 4)⟩, ⟨"1", 4, PyVal.int 1, (4, 5)⟩,
   ⟨")", 16, PyVal.str ")", (5, 6)⟩]

/-- C4 witness: a concrete list expression with a keyword argument fails. -/
theorem c4_nested_list_default_witness :
    parseListExpr 5 c4lexer =
      Except.error (CheckErr.checkError "list expressions may not contain keyword arguments") :=
  c4_nested_list_default.2 4 c4lexer c4lexer.tail []
    ⟨"(", 16, PyVal.str "(", (0, 1)⟩ [] [(PyVal.str "ab", PyVal.int 1)]
    rfl rfl rfl (fun h => List.noConfusion h)

/-- C5: for every successfully parsed check string, `default` and `aliasof`
are popped out of the keyword mapping into the declaration's fields
(`Option.none` being the absent sentinel, distinct from the null value
`PyVal.none`), they are absent from the declaration's passed-through
keyword arguments, and `is_alias` holds exactly when `aliasof` was
supplied. -/
theorem c5_reserved_keyword_extraction :
    ∀ (s : String) (n : PyVal) (a : List PyVal) (kw : PyDict) (c : Check),
      CheckParser.parse s = Except.ok (n, a, kw) → Check.parse s = Except.ok c →
      dictLookup c.kwargs (PyVal.str "default") = Option.none ∧
      dictLookup c.kwargs (PyVal.str "aliasof") = Option.none ∧
      c.default = dictLookup kw (PyVal.str "default") ∧
      c.aliasof = dictLookup kw (PyVal.str "aliasof") ∧
      (c.is_alias = true ↔ (dictLookup kw (PyVal.str "aliasof")).isSome = true) := by
  intro s n a kw c h1 h2
  unfold Check.parse at h2
  rw [h1] at h2
  simp only [Except.ok.injEq] at h2
  subst h2
  have hda : ("default" : String) ≠ "aliasof" := by decide
  have had : ("aliasof" : String) ≠ "default" := by decide
  refine ⟨?_, ?_, rfl, ?_, ?_⟩
  · rw [dictLookup_dictErase_str _ hda, dictLookup_dictErase_self]
  · rw [dictLookup_dictErase_self]
  · show dictLookup (dictErase kw (PyVal.str "default")) (PyVal.str "aliasof") = _
    rw [dictLookup_dictErase_str _ had]
  · show (dictLookup (dictErase kw (PyVal.str "default")) (PyVal.str "aliasof")).isSome = true ↔ _
    rw [dictLookup_dictErase_str _ had]

/-- The check string of the C5 witness,
`string(aliasof='other-option')`. -/
def c5str : String :=
  "string(aliasof=" ++ String.singleton squote ++ "other-option" ++ String.singleton squote ++ ")"

/-- The keyword mapping `CheckParser.parse` produces for `c5str`. -/
def c5kw : PyDict := [(PyVal.str "aliasof", PyVal.str "other-option")]

/-- The declaration `Check.parse` produces for `c5str`. -/
def c5check : Check :=
  ⟨PyVal.str "string", [], [], Option.none, some (PyVal.str "other-option")⟩

/-- C5 witness: the reserved-keyword properties at the concrete check
`string(aliasof='other-option')`. -/
theorem c5_reserved_keyword_extraction_witness :
    dictLookup c5check.kwargs (PyVal.str "default") = Option.none ∧
      dictLookup c5check.kwargs (PyVal.str "aliasof") = Option.none ∧
      c5check.default = dictLookup c5kw (PyVal.str "default") ∧
      c5check.aliasof = dictLookup c5kw (PyVal.str "aliasof") ∧
      (c5check.is_alias = true ↔ (dictLookup c5kw (PyVal.str "aliasof")).isSome = true) :=
  c5_reserved_keyword_extraction c5str (PyVal.str "string") [] c5kw c5check rfl rfl

/-- The raw text of the list-validator claim, `a,"b,c",d`. -/
def c7raw : String :=
  "a," ++ String.singleton dquote ++ "b,c" ++ String.singleton dquote ++ ",d"

/-- C7: converting the raw text `a,"b,c",d` with the list validator (whose
`normalize` deliberately skips unquoting) yields exactly the three fields
`a`, `b,c`, `d` — the comma inside the quoted field does not split it and
the field is unquoted — and every field that is empty after unquoting is
dropped: no empty string ever appears among the converted cells. -/
theorem c7_list_quote_split :
    ListValidator.convert (ListValidator.normalize (PyVal.str c7raw)) =
        Except.ok (PyVal.list [PyVal.str "a", PyVal.str "b,c", PyVal.str "d"]) ∧
      ∀ (s x : String), x ∈ listConvertCells s → x ≠ "" := by
  refine ⟨rfl, fun s x hx heq => ?_⟩
  have hp := (List.mem_filter.mp hx).2
  rw [heq] at hp
  exact absurd hp (by decide)

/-- C7 witness: a concrete nonempty cell of a concrete raw value is not the
empty string. -/
theorem c7_list_quote_split_witness : "ab" ≠ "" :=
  c7_list_quote_split.2 "ab" "ab" (List.mem_singleton.mpr rfl)

/-- C9: every check string that tokenizes to a single identifier token
parses to that identifier as the check name with empty positional
arguments and an empty keyword mapping. -/
theorem c9_bare_name_parse :
    ∀ (s : String) (t : Token), CheckParser.tokenize s = Except.ok [t] →
      t.token_id = CheckParser.T_ID →
      CheckParser.parse s = Except.ok (t.value, [], []) := by
  intro s t h ht
  simp only [CheckParser.parse, h, lexNext]
  rw [ht]
  simp

/-- C9 witness: parsing the bare name `string`. -/
theorem c9_bare_name_parse_witness :
    CheckParser.parse "string" = Except.ok (PyVal.str "string", [], []) :=
  c9_bare_name_parse "string" ⟨"string", 1, PyVal.str "string", (0, 6)⟩ rfl rfl

/-- The 52 ASCII letters. -/
def asciiLetters : List Char :=
  ['a', 'b', 'c', 'd', 'e', 'f', 'g', 'h', 'i', 'j', 'k', 'l', 'm',
   'n', 'o', 'p', 'q', 'r', 's', 't', 'u', 'v', 'w', 'x', 'y', 'z',
   'A', 'B', 'C', 'D', 'E', 'F', 'G', 'H', 'I', 'J', 'K', 'L', 'M',
   'N', 'O', 'P', 'Q', 'R', 'S', 'T', 'U', 'V', 'W', 'X', 'Y', 'Z']

/-- C10: the identifier rule only matches names of at least two characters
whose final character is not a digit; consequently tokenizing a check
string consisting of a single ASCII letter fails with a `CheckParseError`
reporting offset 0 of the unmatched character. -/
theorem c10_min_identifier_length :
    (∀ (cs m rest : List Char), matchName cs = some (m, rest) →
        2 ≤ m.length ∧ ∀ l, m.getLast? = some l → l.isDigit = false) ∧
      ∀ c ∈ asciiLetters,
        CheckParser.tokenize (String.singleton c) =
          Except.error (CheckErr.parseError (tokenizeErrMsg 0 (String.singleton c))) := by
  refine ⟨fun cs m rest h => matchName_sound h, ?_⟩
  intro c hc
  fin_cases hc <;> rfl

/-- C10 witness: tokenizing the single letter `x`. -/
theorem c10_min_identifier_length_witness :
    CheckParser.tokenize (String.singleton 'x') =
      Except.error (CheckErr.parseError (tokenizeErrMsg 0 (String.singleton 'x'))) :=
  c10_min_identifier_length.2 'x' (by decide)

/-- The kwargs of a check `integer(base=16)`. -/
def kwargsBase16 : PyDict := [(PyVal.str "base", PyVal.int 16)]

/-- The single-quote character as a string. -/
def sqTxt : String := String.singleton squote

/-- The double-quote character as a string. -/
def dqTxt : String := String.singleton dquote

/-- A string value wrapped in single quotes, `'a'`. -/
def c1quotedStr : String := sqTxt ++ "a" ++ sqTxt

/-- A producible list cell wrapped in single quotes, `'x'`. -/
def c1listQuotedCell : String := sqTxt ++ "x" ++ sqTxt

/-- A producible command-line argument containing a single quote, `a'b`. -/
def c1cmdArg : String := "a" ++ sqTxt ++ "b"

/-- C1 (counterexample): the round-trip law, as universally stated over
every built-in validator and every value its `convert` can produce, fails.
One failing instance per affected validator: the integer validator with a
non-default base (format writes decimal `"16"` for 16, re-convert parses
it in base 16 as 22) and on a bool pass-through value (format writes
`"True"`, which re-convert rejects); the float validator, whose `%.2f`
format truncates 0.001 to `"0.00"`, re-converting to 0.0; the string
validator on a quote-wrapped string (normalize re-unquotes it) and on an
int pass-through (format stringifies it); the option validator on
non-string members (the rejection message even raises `TypeError` in
`','.join`) and quote-wrapped string members; the list validator on a
produced cell with a leading space (`skipinitialspace` eats it on re-read)
and on a produced quote-wrapped cell (`unquote` strips it on re-read); the
cmdline validator on a produced argument containing a single quote
(`list2cmdline` writes it bare, `shlex` then dies on the open quote); and
the log-level validator on a pass-through severity outside the named set,
where `format` itself raises. -/
theorem c1_roundtrip_counterexample :
    (("integer", ValidatorClass.intV) ∈ default_validators ∧
      IntValidator.convert kwargsBase16 (PyVal.str "10") = Except.ok (PyVal.int 16) ∧
      IntValidator.convert kwargsBase16
          (BaseValidator.normalize (BaseValidator.format (PyVal.int 16))) =
        Except.ok (PyVal.int 22) ∧ (22 : Int) ≠ 16) ∧
    (IntValidator.convert [] (PyVal.bool true) = Except.ok (PyVal.bool true) ∧
      IntValidator.convert [] (BaseValidator.normalize (BaseValidator.format (PyVal.bool true))) =
        Except.error (PyErr.validationError "Invalid format for integer True" (PyVal.str "True"))) ∧
    (FloatValidator.convert (PyVal.str "0.001") = Except.ok ⟨1, 1000⟩ ∧
      FloatValidator.convert (BaseValidator.normalize (FloatValidator.format ⟨1, 1000⟩)) =
        Except.ok ⟨0, 100⟩ ∧ pyFloatEq ⟨0, 100⟩ ⟨1, 1000⟩ = false) ∧
    (StringValidator.convert (PyVal.str c1quotedStr) = Except.ok (PyVal.str c1quotedStr) ∧
      StringValidator.convert
          (BaseValidator.normalize (BaseValidator.format (PyVal.str c1quotedStr))) =
        Except.ok (PyVal.str "a") ∧ ("a" : String) ≠ c1quotedStr ∧
      StringValidator.convert (BaseValidator.normalize (BaseValidator.format (PyVal.int 5))) =
        Except.ok (PyVal.str "5") ∧ PyVal.str "5" ≠ PyVal.int 5) ∧
    (OptionValidator.convert [PyVal.int 1, PyVal.int 2] (PyVal.int 1) =
        Except.ok (PyVal.int 1) ∧
      OptionValidator.convert [PyVal.int 1, PyVal.int 2]
          (BaseValidator.normalize (BaseValidator.format (PyVal.int 1))) =
        Except.error (PyErr.typeError "sequence item: expected string") ∧
      OptionValidator.convert [PyVal.str c1quotedStr] (PyVal.str c1quotedStr) =
        Except.ok (PyVal.str c1quotedStr) ∧
      OptionValidator.convert [PyVal.str c1quotedStr]
          (BaseValidator.normalize (BaseValidator.format (PyVal.str c1quotedStr))) =
        Except.error (PyErr.validationError
          ("invalid option " ++ sqTxt ++ "a" ++ sqTxt ++ " - choose from: " ++ c1quotedStr)
          (PyVal.str "a"))) ∧
    (ListValidator.convert (ListValidator.normalize
          (PyVal.str ("x," ++ dqTxt ++ " a" ++ dqTxt))) =
        Except.ok (PyVal.list [PyVal.str "x", PyVal.str " a"]) ∧
      ListValidator.format (PyVal.list [PyVal.str "x", PyVal.str " a"]) =
        Except.ok (PyVal.str "x, a") ∧
      ListValidator.convert (ListValidator.normalize (PyVal.str "x, a")) =
        Except.ok (PyVal.list [PyVal.str "x", PyVal.str "a"]) ∧ (" a" : String) ≠ "a" ∧
      ListValidator.convert (ListValidator.normalize
          (PyVal.str (dqTxt ++ sqTxt ++ sqTxt ++ "x" ++ sqTxt ++ sqTxt ++ dqTxt))) =
        Except.ok (PyVal.list [PyVal.str c1listQuotedCell]) ∧
      ListValidator.format (PyVal.list [PyVal.str c1listQuotedCell]) =
        Except.ok (PyVal.str c1listQuotedCell) ∧
      ListValidator.convert (ListValidator.normalize (PyVal.str c1listQuotedCell)) =
        Except.ok (PyVal.list [PyVal.str "x"]) ∧ ("x" : String) ≠ c1listQuotedCell) ∧
    (CmdlineValidator.convert (PyVal.str (dqTxt ++ c1cmdArg ++ dqTxt)) =
        Except.ok (PyVal.list [PyVal.str c1cmdArg]) ∧
      CmdlineValidator.format (PyVal.list [PyVal.str c1cmdArg]) =
        Except.ok (PyVal.str c1cmdArg) ∧
      CmdlineValidator.convert (BaseValidator.normalize (PyVal.str c1cmdArg)) =
        Except.error (PyErr.valueError "No closing quotation")) ∧
    (LogLevelValidator.convert (PyVal.int 7) = Except.ok (PyVal.int 7) ∧
      LogLevelValidator.format (PyVal.int 7) =
        Except.error (PyErr.validationError
          ("Unknown logging level " ++ sqTxt ++ "7" ++ sqTxt) (PyVal.int 7))) :=
  ⟨⟨by decide, rfl, rfl, by decide⟩, ⟨rfl, rfl⟩, ⟨rfl, rfl, by decide⟩,
   ⟨rfl, rfl, by decide, rfl, fun h => PyVal.noConfusion h⟩,
   ⟨rfl, rfl, rfl, rfl⟩,
   ⟨rfl, rfl, rfl, by decide, rfl, rfl, rfl, by decide⟩,
   ⟨rfl, rfl, rfl⟩, ⟨rfl, rfl⟩⟩

/-- C1 (amended): the round-trip law `convert (normalize (format v)) = v`
holds for every built-in validator on the values its `convert` can produce,
except where the counterexamples force a restriction.  Specifically it
holds: for the boolean validator on every producible value; for integer
validators with the default base 10 on `None` and on every producible
integer value (non-default bases and bool pass-throughs fail); for the
string validator on every string value unchanged by `unquote`
(quote-wrapped strings and non-string pass-throughs fail); for the option
validator on every produced string member unchanged by `unquote`
(non-string and quote-wrapped members fail); for the list and tuple
validators on every cell list whose cells are nonempty, unchanged by
`unquote`, and either need csv quoting or carry no edge whitespace
(leading-space and removable-quote cells fail); for the cmdline validator
on argument vectors of nonempty words free of whitespace, quotes and
backslashes (quote-bearing words fail); and for the log-level validator on
the five standard severities (other pass-through integers fail at
`format`). -/
theorem c1_roundtrip_amended :
    (∀ b : Bool,
        BoolValidator.convert (BaseValidator.normalize (BoolValidator.format (PyVal.bool b))) =
          Except.ok (PyVal.bool b)) ∧
    (∀ kwargs : PyDict,
        IntValidator.convert kwargs (BaseValidator.normalize (BaseValidator.format PyVal.none)) =
          Except.ok PyVal.none) ∧
    (∀ (kwargs : PyDict) (r : PyVal) (v : Int),
        (dictLookup kwargs (PyVal.str "base") = Option.none ∨
          dictLookup kwargs (PyVal.str "base") = some (PyVal.int 10)) →
        IntValidator.convert kwargs r = Except.ok (PyVal.int v) →
        IntValidator.convert kwargs
            (BaseValidator.normalize (BaseValidator.format (PyVal.int v))) =
          Except.ok (PyVal.int v)) ∧
    (∀ s : String, unquote s = s →
        StringValidator.convert (BaseValidator.normalize (BaseValidator.format (PyVal.str s))) =
          Except.ok (PyVal.str s)) ∧
    (∀ (args : List PyVal) (r : PyVal) (s : String), unquote s = s →
        OptionValidator.convert args r = Except.ok (PyVal.str s) →
        OptionValidator.convert args
            (BaseValidator.normalize (BaseValidator.format (PyVal.str s))) =
          Except.ok (PyVal.str s)) ∧
    (∀ cells : List String, cells.all cellOk = true →
        ListValidator.format (PyVal.list (cells.map PyVal.str)) =
          Except.ok (PyVal.str (csvFormatCells cells)) ∧
        ListValidator.convert (ListValidator.normalize (PyVal.str (csvFormatCells cells))) =
          Except.ok (PyVal.list (cells.map PyVal.str))) ∧
    (∀ cells : List String, cells.all cellOk = true →
        TupleValidator.convert (ListValidator.normalize (PyVal.str (csvFormatCells cells))) =
          Except.ok (PyVal.list (cells.map PyVal.str))) ∧
    (∀ args : List String, args.all cmdArgOk = true →
        CmdlineValidator.format (PyVal.list (args.map PyVal.str)) =
          Except.ok (PyVal.str (String.mk (cmdJoin args))) ∧
        CmdlineValidator.convert (BaseValidator.normalize (PyVal.str (String.mk (cmdJoin args)))) =
          Except.ok (PyVal.list (args.map PyVal.str))) ∧
    (∀ i : Int, i ∈ ([10, 20, 30, 40, 50] : List Int) →
        (LogLevelValidator.format (PyVal.int i)).bind
            (fun t => LogLevelValidator.convert (BaseValidator.normalize t)) =
          Except.ok (PyVal.int i)) := by
  refine ⟨?_, ?_, ?_, ?_, ?_, ?_, ?_, ?_, ?_⟩
  · intro b
    cases b <;> rfl
  · intro kwargs
    rfl
  · intro kwargs r v hbase hconv
    have hb : kwGetBase kwargs = PyVal.int 10 := by
      unfold kwGetBase
      rcases hbase with h | h <;> rw [h] <;> rfl
    have hcb : intCheckBounds kwargs v (PyVal.int v) = Except.ok (PyVal.int v) := by
      cases r with
      | none => simp [IntValidator.convert] at hconv
      | bool b => exact absurd (intCheckBounds_ok hconv) (by simp)
      | int i =>
        have hxv := intCheckBounds_ok hconv
        injection hxv with hvi
        subst hvi
        exact hconv
      | str s₂ =>
        simp only [IntValidator.convert, hb] at hconv
        rcases hp : pyIntOfString s₂ 10 with _ | i
        · rw [hp] at hconv
          simp at hconv
        · rw [hp] at hconv
          have hxv := intCheckBounds_ok hconv
          injection hxv with hvi
          subst hvi
          exact hconv
      | float ip fr => simp [IntValidator.convert] at hconv
      | list l => simp [IntValidator.convert] at hconv
    have hnorm :
        BaseValidator.normalize (BaseValidator.format (PyVal.int v)) = PyVal.str (intToStr v) := by
      show PyVal.str (unquote (intToStr v)) = _
      rw [unquote_intToStr]
    rw [hnorm]
    simp only [IntValidator.convert, hb, pyIntOfString_intToStr]
    exact hcb
  · intro s hs
    show Except.ok (PyVal.str (unquote s)) = _
    rw [hs]
  · intro args r s hs hconv
    have hnorm :
        BaseValidator.normalize (BaseValidator.format (PyVal.str s)) = PyVal.str s := by
      show PyVal.str (unquote s) = _
      rw [hs]
    unfold OptionValidator.convert at hconv
    split at hconv
    · next hmem =>
      simp only [Except.ok.injEq] at hconv
      subst hconv
      rw [hnorm]
      unfold OptionValidator.convert
      rw [if_pos hmem]
    · split at hconv <;> exact absurd hconv (by simp)
  · intro cells hall
    constructor
    · show ListValidator.format (PyVal.list (cells.map PyVal.str)) = _
      simp [ListValidator.format, allStrs_map_str]
    · show Except.ok (PyVal.list ((listConvertCells (csvFormatCells cells)).map PyVal.str)) = _
      rw [listConvertCells_roundtrip hall]
  · intro cells hall
    show Except.ok (PyVal.list ((listConvertCells (csvFormatCells cells)).map PyVal.str)) = _
    rw [listConvertCells_roundtrip hall]
  · intro args hall
    constructor
    · show CmdlineValidator.format (PyVal.list (args.map PyVal.str)) = _
      simp [CmdlineValidator.format, allStrs_map_str]
    · have hnorm : BaseValidator.normalize (PyVal.str (String.mk (cmdJoin args))) =
          PyVal.str (String.mk (cmdJoin args)) := by
        show PyVal.str (unquote (String.mk (cmdJoin args))) = _
        congr 1
        cases args with
        | nil => rfl
        | cons a rest =>
          have ha : cmdArgOk a = true := by
            have := List.all_eq_true.mp hall a (List.mem_cons_self _ _)
            simpa using this
          have hne : cmdJoin (a :: rest) ≠ [] := by
            obtain ⟨hdne, _⟩ := cmdArgOk_parts ha
            obtain ⟨h₀, t, hd⟩ := List.exists_cons_of_ne_nil hdne
            cases rest with
            | nil =>
              show cmdArgRender a ≠ []
              rw [cmdArgRender_safe ha, hd]
              simp
            | cons r rs =>
              show cmdArgRender a ++ ' ' :: cmdJoin (r :: rs) ≠ []
              simp
          obtain ⟨x, xs, hj⟩ := List.exists_cons_of_ne_nil hne
          have hx : shlexSafeChar x = true := cmdJoin_head_safe ha x (by rw [hj]; rfl)
          obtain ⟨_, x2, x3, _⟩ := shlexSafe_facts hx
          exact unquote_eq_self_of_head (by rw [show (String.mk (cmdJoin (a :: rest))).data =
            cmdJoin (a :: rest) from rfl, hj]; rfl) x2 x3
      rw [hnorm]
      show (match shlexRun ShState.start (cmdJoin args) with
        | Except.ok words => Except.ok (PyVal.list (words.map PyVal.str))
        | Except.error msg => Except.error (PyErr.valueError msg)) = _
      rw [shlexRun_join args hall]
  · intro i hi
    fin_cases hi <;> rfl

/-- C1 witness: the amended round trips at concrete inputs — the integer
validator with no kwargs at 5 (produced from `"5"`), the string validator
at `"ab"`, the option validator with member `"ab"`, the list, tuple and
cmdline validators at the one-cell list `["ab"]`, and the log-level
validator at severity 10. -/
theorem c1_roundtrip_witness :
    IntValidator.convert []
        (BaseValidator.normalize (BaseValidator.format (PyVal.int 5))) =
      Except.ok (PyVal.int 5) ∧
    StringValidator.convert
        (BaseValidator.normalize (BaseValidator.format (PyVal.str "ab"))) =
      Except.ok (PyVal.str "ab") ∧
    OptionValidator.convert [PyVal.str "ab"]
        (BaseValidator.normalize (BaseValidator.format (PyVal.str "ab"))) =
      Except.ok (PyVal.str "ab") ∧
    ListValidator.convert (ListValidator.normalize (PyVal.str (csvFormatCells ["ab"]))) =
      Except.ok (PyVal.list [PyVal.str "ab"]) ∧
    TupleValidator.convert (ListValidator.normalize (PyVal.str (csvFormatCells ["ab"]))) =
      Except.ok (PyVal.list [PyVal.str "ab"]) ∧
    CmdlineValidator.convert
        (BaseValidator.normalize (PyVal.str (String.mk (cmdJoin ["ab"])))) =
      Except.ok (PyVal.list [PyVal.str "ab"]) ∧
    (LogLevelValidator.format (PyVal.int 10)).bind
        (fun t => LogLevelValidator.convert (BaseValidator.normalize t)) =
      Except.ok (PyVal.int 10) :=
  ⟨c1_roundtrip_amended.2.2.1 [] (PyVal.str "5") 5 (Or.inl rfl) rfl,
   c1_roundtrip_amended.2.2.2.1 "ab" rfl,
   c1_roundtrip_amended.2.2.2.2.1 [PyVal.str "ab"] (PyVal.str "ab") "ab" rfl rfl,
   (c1_roundtrip_amended.2.2.2.2.2.1 ["ab"] rfl).2,
   c1_roundtrip_amended.2.2.2.2.2.2.1 ["ab"] rfl,
   (c1_roundtrip_amended.2.2.2.2.2.2.2.1 ["ab"] rfl).2,
   c1_roundtrip_amended.2.2.2.2.2.2.2.2 10 (by decide)⟩
